import Mathlib

/-!
Verification of the stock trading engine core.

A shallow embedding of `stock_trading_engine.py` (order book creation,
ticker registration, order submission, price-time-priority matching).

Modelling conventions:
* The Python order `[order_type, ticker, quantity, price, order_id, sequence]`
  becomes the structure `Order` with the fields in the same positions.
* The Python order book `[ticker_symbols, buy_orders, sell_orders,
  ticker_count, next_order_id]` becomes the structure `OrderBook`.
* Quantities and prices are Python numbers compared with `<`, `==`, `>=`,
  combined with `min` and `-`; they are modelled as `Int` (the algorithm
  only compares, subtracts and copies them).
* The process-global `order_sequence` counter is threaded explicitly:
  `add_order` takes the current value and returns the new one.
* Fallible results (`-1` sentinels for "no index") become `Option Nat`;
  `add_order`'s Python return value is an `Int` (`-1` or the order id),
  kept as such.
* The `while` loop of `match_orders` is modelled with explicit fuel and an
  `Option` result (`none` = fuel exhausted); the development proves that
  the fuel `buys.length + sells.length + 1` always suffices, which is the
  termination argument for the Python loop.
-/

/-- Python constant `BUY = 1`. -/
def BUY : Nat := 1

/-- Python constant `SELL = 2`. -/
def SELL : Nat := 2

/-- One order: `[order_type, ticker, quantity, price, order_id, sequence]`. -/
structure Order where
  side : Nat
  ticker : String
  qty : Int
  price : Int
  id : Nat
  seq : Nat
  deriving Repr, DecidableEq, Inhabited

/-- One match record:
`[buy_order_id, sell_order_id, ticker, matched quantity, execution price]`. -/
structure MatchRecord where
  buyId : Nat
  sellId : Nat
  ticker : String
  qty : Int
  price : Int
  deriving Repr, DecidableEq, Inhabited

/-- The order book
`[ticker_symbols, buy_orders, sell_orders, ticker_count, next_order_id]`. -/
structure OrderBook where
  tickerSymbols : List (Option String)
  buyOrders : List (List Order)
  sellOrders : List (List Order)
  tickerCount : Nat
  nextOrderId : Nat
  deriving Repr, DecidableEq, Inhabited

/-- `create_order_book(num_tickers=1024)`: pre-allocated empty per-ticker
lists, zero registered tickers, next order id 1. -/
def create_order_book (numTickers : Nat := 1024) : OrderBook :=
  { tickerSymbols := List.replicate numTickers none
    buyOrders := List.replicate numTickers []
    sellOrders := List.replicate numTickers []
    tickerCount := 0
    nextOrderId := 1 }

/-- The fast-path scan of `get_ticker_index`:
`for i in range(ticker_count): if ticker_symbols[i] == ticker: return i`.
Recursion is on the scan bound; the first (lowest) matching index wins,
exactly as the early `return` does. -/
def scanTicker (symbols : List (Option String)) (ticker : String) : Nat → Option Nat
  | 0 => none
  | n + 1 =>
    match scanTicker symbols ticker n with
    | some i => some i
    | none => if symbols.getD n none = some ticker then some n else none

/-- `get_ticker_index(order_book, ticker)`: return an existing slot, or
register the ticker in the next free slot, or fail (`-1`, here `none`)
when the registry is at capacity.  The possibly-updated book is returned
alongside (the Python function mutates `order_book[0]` / `order_book[3]`). -/
def get_ticker_index (book : OrderBook) (ticker : String) : Option Nat × OrderBook :=
  match scanTicker book.tickerSymbols ticker book.tickerCount with
  | some i => (some i, book)
  | none =>
    if book.tickerSymbols.length ≤ book.tickerCount then
      (none, book)
    else
      (some book.tickerCount,
        { book with
            tickerSymbols := book.tickerSymbols.set book.tickerCount (some ticker)
            tickerCount := book.tickerCount + 1 })

/-- `add_order(order_book, order_type, ticker, quantity, price)`.
`seq` is the process-global `order_sequence` before the call; the result is
`(returned id or -1, updated book, updated order_sequence)`.  As in the
source, the id and sequence counters are advanced *before* the ticker is
resolved, so a capacity rejection still consumes them. -/
def add_order (book : OrderBook) (seq : Nat) (orderType : Nat) (ticker : String)
    (quantity price : Int) : Int × OrderBook × Nat :=
  let orderId := book.nextOrderId
  let book1 := { book with nextOrderId := book.nextOrderId + 1 }
  let seq1 := seq + 1
  let order : Order :=
    { side := orderType, ticker := ticker, qty := quantity, price := price
      id := orderId, seq := seq1 }
  match get_ticker_index book1 ticker with
  | (none, book2) => (-1, book2, seq1)
  | (some idx, book2) =>
    if orderType = BUY then
      ((orderId : Int),
        { book2 with buyOrders := book2.buyOrders.set idx (book2.buyOrders.getD idx [] ++ [order]) },
        seq1)
    else
      ((orderId : Int),
        { book2 with sellOrders := book2.sellOrders.set idx (book2.sellOrders.getD idx [] ++ [order]) },
        seq1)

/-- The buy-side comparator of `match_orders`: `lambda x, y: x > y`. -/
def cmpGT (x y : Int) : Bool := decide (y < x)

/-- The sell-side comparator of `match_orders`: `lambda x, y: x < y`. -/
def cmpLT (x y : Int) : Bool := decide (x < y)

/-- The scanning loop of `find_best_order`.  The accumulator is
`none` while `best_idx == -1`, else `some (best_idx, best_price, best_seq)`;
`i` is the index of the head of the remaining list. -/
def findBestGo (cmp : Int → Int → Bool) (completed : List Nat) :
    List Order → Nat → Option (Nat × Int × Nat) → Option (Nat × Int × Nat)
  | [], _, best => best
  | o :: rest, i, best =>
    if i ∈ completed then
      findBestGo cmp completed rest (i + 1) best
    else
      match best with
      | none => findBestGo cmp completed rest (i + 1) (some (i, o.price, o.seq))
      | some (bi, bp, bs) =>
        if cmp o.price bp || (o.price == bp && decide (o.seq < bs)) then
          findBestGo cmp completed rest (i + 1) (some (i, o.price, o.seq))
        else
          findBestGo cmp completed rest (i + 1) (some (bi, bp, bs))

/-- `find_best_order(orders, completed_indices, compare_func, 3, 5)`:
index of the best order, or `none` for the Python `-1`.  The price and
sequence positions 3 and 5 are the `price` and `seq` fields. -/
def find_best_order (orders : List Order) (completed : List Nat)
    (cmp : Int → Int → Bool) : Option Nat :=
  (findBestGo cmp completed orders 0 none).map (fun b => b.1)

/-- Result of one per-ticker crossing loop: emitted records, the two order
lists (with decremented quantities), and the completed index lists. -/
structure LoopOut where
  recs : List MatchRecord
  buys : List Order
  sells : List Order
  cb : List Nat
  cs : List Nat
  deriving Repr, DecidableEq

/-- The `while continue_matching and buy_orders and sell_orders` loop of
`match_orders`, with explicit fuel (`none` = fuel ran out).  The two list
arguments never change length, so the Python emptiness test is invariant;
when a side is empty `find_best_order` returns `none` and the loop stops
with the current state, exactly as the Python loop does not run. -/
def matchLoop : Nat → List Order → List Order → List Nat → List Nat →
    List MatchRecord → Option LoopOut
  | 0, _, _, _, _, _ => none
  | fuel + 1, buys, sells, cb, cs, acc =>
    match find_best_order buys cb cmpGT with
    | none => some ⟨acc, buys, sells, cb, cs⟩
    | some bi =>
      match find_best_order sells cs cmpLT with
      | none => some ⟨acc, buys, sells, cb, cs⟩
      | some si =>
        let buy := buys.getD bi default
        let sell := sells.getD si default
        if sell.price ≤ buy.price then
          let q := min buy.qty sell.qty
          let r : MatchRecord :=
            { buyId := buy.id, sellId := sell.id, ticker := buy.ticker
              qty := q, price := sell.price }
          matchLoop fuel
            (buys.set bi { buy with qty := buy.qty - q })
            (sells.set si { sell with qty := sell.qty - q })
            (if buy.qty - q = 0 then cb ++ [bi] else cb)
            (if sell.qty - q = 0 then cs ++ [si] else cs)
            (acc ++ [r])
        else
          some ⟨acc, buys, sells, cb, cs⟩

/-- The compaction comprehension
`[x for i, x in enumerate(orders) if i not in completed]`;
`i` is the index of the head of the remaining list. -/
def stripCompleted : List Order → List Nat → Nat → List Order
  | [], _, _ => []
  | o :: rest, completed, i =>
    if i ∈ completed then stripCompleted rest completed (i + 1)
    else o :: stripCompleted rest completed (i + 1)

/-- The per-ticker body of `match_orders`: skip when a side is empty, run
the crossing loop, then compact completed orders out of both sides (the
Python code assigns only when a completed list is non-empty). -/
def matchTicker (buys sells : List Order) :
    Option (List MatchRecord × List Order × List Order) :=
  if buys.isEmpty || sells.isEmpty then some ([], buys, sells)
  else
    match matchLoop (buys.length + sells.length + 1) buys sells [] [] [] with
    | none => none
    | some out =>
      some (out.recs,
        (if out.cb.isEmpty then out.buys else stripCompleted out.buys out.cb 0),
        (if out.cs.isEmpty then out.sells else stripCompleted out.sells out.cs 0))

/-- One iteration of the `for ticker_idx in range(ticker_count)` loop:
skip unregistered (`None`) slots, otherwise run the crossing loop on the
slot and store the compacted sides back. -/
def matchStep (book : OrderBook) (idx : Nat) : Option (List MatchRecord × OrderBook) :=
  match book.tickerSymbols.getD idx none with
  | none => some ([], book)
  | some _ =>
    match matchTicker (book.buyOrders.getD idx []) (book.sellOrders.getD idx []) with
    | none => none
    | some (ms, b', s') =>
      some (ms,
        { book with
            buyOrders := book.buyOrders.set idx b'
            sellOrders := book.sellOrders.set idx s' })

/-- Folding `matchStep` over a list of ticker indices, concatenating the
emitted records in discovery order. -/
def matchRange : List Nat → OrderBook → Option (List MatchRecord × OrderBook)
  | [], book => some ([], book)
  | i :: rest, book =>
    match matchStep book i with
    | none => none
    | some (ms, book') =>
      match matchRange rest book' with
      | none => none
      | some (ms', book'') => some (ms ++ ms', book'')

/-- `match_orders(order_book)`: one matching pass over all registered
ticker slots, returning the match records and the updated book. -/
def match_orders (book : OrderBook) : Option (List MatchRecord × OrderBook) :=
  matchRange (List.range book.tickerCount) book

/-- Every order resting anywhere in the book has strictly positive
remaining quantity. -/
def BookPositive (book : OrderBook) : Prop :=
  ∀ i : Nat,
    (∀ o ∈ book.buyOrders.getD i [], 0 < o.qty) ∧
    (∀ o ∈ book.sellOrders.getD i [], 0 < o.qty)

/-- Modelled from the spec: the sequence of match events of one symbol's
crossing loop.  Each event matches a buy at `bi` and a sell at `si`; the
emitted record carries the matched buy order's id and ticker, the matched
sell order's id and limit price, and quantity
`min(remaining buy, remaining sell)` *at that event*; both matched
orders' remaining quantities are decremented by exactly the recorded
quantity before the next event. -/
inductive SpecEventChain :
    List Order → List Order → List MatchRecord → List Order → List Order → Prop
  | nil (buys sells : List Order) : SpecEventChain buys sells [] buys sells
  | step (buys sells : List Order) (bi si : Nat) (hb : bi < buys.length)
      (hs : si < sells.length) (r : MatchRecord) (rest : List MatchRecord)
      (bout sout : List Order)
      (hbid : r.buyId = (buys.get ⟨bi, hb⟩).id)
      (hsid : r.sellId = (sells.get ⟨si, hs⟩).id)
      (htk : r.ticker = (buys.get ⟨bi, hb⟩).ticker)
      (hpr : r.price = (sells.get ⟨si, hs⟩).price)
      (hq : r.qty = min (buys.get ⟨bi, hb⟩).qty (sells.get ⟨si, hs⟩).qty)
      (hnext : SpecEventChain
        (buys.set bi { buys.get ⟨bi, hb⟩ with qty := (buys.get ⟨bi, hb⟩).qty - r.qty })
        (sells.set si { sells.get ⟨si, hs⟩ with qty := (sells.get ⟨si, hs⟩).qty - r.qty })
        rest bout sout) :
      SpecEventChain buys sells (r :: rest) bout sout

/-! ## Generic list helpers -/

theorem getD_set_ne {α : Type _} (l : List α) (i j : Nat) (x d : α) (hij : j ≠ i) :
    (l.set i x).getD j d = l.getD j d := by
  rw [List.getD_eq_getElem?_getD, List.getD_eq_getElem?_getD,
    List.getElem?_set_ne (fun he => hij he.symm)]

theorem getD_set_lt {α : Type _} (l : List α) (i : Nat) (x d : α) (hi : i < l.length) :
    (l.set i x).getD i d = x := by
  rw [List.getD_eq_getElem?_getD, List.getElem?_set_self hi]
  rfl

theorem getD_oob {α : Type _} (l : List α) (i : Nat) (d : α) (hi : l.length ≤ i) :
    l.getD i d = d := by
  rw [List.getD_eq_getElem?_getD, List.getElem?_eq_none hi]
  rfl

theorem list_set_getD_self {α : Type _} :
    ∀ (l : List α) (i : Nat) (d : α), l.set i (l.getD i d) = l
  | [], _, _ => rfl
  | x :: xs, 0, d => rfl
  | x :: xs, i + 1, d => by
    show x :: xs.set i (xs.getD i d) = x :: xs
    rw [list_set_getD_self xs i d]

/-! ## Submission and registry lemmas -/

theorem scanTicker_none (symbols : List (Option String)) (ticker : String) :
    ∀ n, (∀ i, i < n → symbols.getD i none ≠ some ticker) →
      scanTicker symbols ticker n = none
  | 0, _ => rfl
  | n + 1, h => by
    unfold scanTicker
    rw [scanTicker_none symbols ticker n (fun i hi => h i (Nat.lt_succ_of_lt hi))]
    show (if symbols.getD n none = some ticker then some n else none) = none
    exact if_neg (h n (Nat.lt_succ_self n))

theorem get_ticker_index_atCapacity (book : OrderBook) (ticker : String)
    (hfull : book.tickerSymbols.length ≤ book.tickerCount)
    (hunseen : ∀ i, i < book.tickerCount → book.tickerSymbols.getD i none ≠ some ticker) :
    get_ticker_index book ticker = (none, book) := by
  unfold get_ticker_index
  rw [scanTicker_none _ _ _ hunseen]
  simp [hfull]

theorem add_order_atCapacity (book : OrderBook) (seq ty : Nat) (ticker : String)
    (q p : Int)
    (hfull : book.tickerSymbols.length ≤ book.tickerCount)
    (hunseen : ∀ i, i < book.tickerCount → book.tickerSymbols.getD i none ≠ some ticker) :
    add_order book seq ty ticker q p =
      (-1, { book with nextOrderId := book.nextOrderId + 1 }, seq + 1) := by
  simp only [add_order]
  rw [get_ticker_index_atCapacity { book with nextOrderId := book.nextOrderId + 1 } ticker
    hfull hunseen]

theorem get_ticker_index_isSome (book : OrderBook) (ticker : String)
    (hcap : book.tickerCount < book.tickerSymbols.length) :
    ∃ idx book2, get_ticker_index book ticker = (some idx, book2) := by
  unfold get_ticker_index
  cases hscan : scanTicker book.tickerSymbols ticker book.tickerCount with
  | some i => exact ⟨i, book, rfl⟩
  | none =>
    rw [if_neg (Nat.not_le.mpr hcap)]
    exact ⟨_, _, rfl⟩

theorem get_ticker_index_preserves (book : OrderBook) (t : String) :
    (get_ticker_index book t).2.buyOrders = book.buyOrders ∧
    (get_ticker_index book t).2.sellOrders = book.sellOrders ∧
    (get_ticker_index book t).2.nextOrderId = book.nextOrderId := by
  unfold get_ticker_index
  cases scanTicker book.tickerSymbols t book.tickerCount with
  | some i => exact ⟨rfl, rfl, rfl⟩
  | none =>
    by_cases h : book.tickerSymbols.length ≤ book.tickerCount
    · rw [if_pos h]; exact ⟨rfl, rfl, rfl⟩
    · rw [if_neg h]; exact ⟨rfl, rfl, rfl⟩

theorem scanTicker_some (symbols : List (Option String)) (ticker : String) :
    ∀ n i, scanTicker symbols ticker n = some i →
      i < n ∧ symbols.getD i none = some ticker
  | 0, i, h => by exact absurd h (by simp [scanTicker])
  | n + 1, i, h => by
    simp only [scanTicker] at h
    rcases hrec : scanTicker symbols ticker n with _ | j
    · rw [hrec] at h
      replace h : (if symbols.getD n none = some ticker then some n else none) = some i := h
      split at h
      · injection h with h
        subst h
        exact ⟨Nat.lt_succ_self _, by assumption⟩
      · exact absurd h (by simp)
    · rw [hrec] at h
      injection h with h
      subst h
      obtain ⟨hlt, hget⟩ := scanTicker_some symbols ticker n _ hrec
      exact ⟨Nat.lt_succ_of_lt hlt, hget⟩

theorem get_ticker_index_fst_eq (b1 b2 : OrderBook) (t : String)
    (hs : b1.tickerSymbols = b2.tickerSymbols) (hc : b1.tickerCount = b2.tickerCount) :
    (get_ticker_index b1 t).1 = (get_ticker_index b2 t).1 := by
  unfold get_ticker_index
  rw [hs, hc]
  cases scanTicker b2.tickerSymbols t b2.tickerCount with
  | some i => rfl
  | none => by_cases hle : b2.tickerSymbols.length ≤ b2.tickerCount <;> simp [hle]

theorem get_ticker_index_some (book : OrderBook) (t : String) (idx : Nat)
    (book2 : OrderBook) (h : get_ticker_index book t = (some idx, book2))
    (hcnt : book.tickerCount ≤ book.tickerSymbols.length) :
    idx < book.tickerSymbols.length ∧
    book2.buyOrders = book.buyOrders ∧ book2.sellOrders = book.sellOrders ∧
    book2.nextOrderId = book.nextOrderId ∧
    book2.tickerSymbols.getD idx none = some t := by
  unfold get_ticker_index at h
  rcases hscan : scanTicker book.tickerSymbols t book.tickerCount with _ | i
  · rw [hscan] at h
    replace h : (if book.tickerSymbols.length ≤ book.tickerCount then ((none, book) : Option Nat × OrderBook) else (some book.tickerCount, { book with tickerSymbols := book.tickerSymbols.set book.tickerCount (some t), tickerCount := book.tickerCount + 1 })) = (some idx, book2) := h
    split at h
    · exact absurd h (by simp)
    · injection h with h1 h2
      injection h1 with h1
      subst h2
      subst h1
      refine ⟨by omega, rfl, rfl, rfl, ?_⟩
      show (book.tickerSymbols.set book.tickerCount (some t)).getD book.tickerCount none =
        some t
      exact getD_set_lt _ _ _ _ (by omega)
  · rw [hscan] at h
    replace h : ((some i, book) : Option Nat × OrderBook) = (some idx, book2) := h
    injection h with h1 h2
    injection h1 with h1
    obtain ⟨hlt, hget⟩ := scanTicker_some book.tickerSymbols t book.tickerCount i hscan
    subst h2
    subst h1
    exact ⟨Nat.lt_of_lt_of_le hlt hcnt, rfl, rfl, rfl, hget⟩

/-- C1 counterexample: `add_order` on a fresh book with quantity `0`
(non-positive) is *not* rejected: it returns order id `1`, appends the
order, registers the ticker and advances the id counter. -/
theorem C1_counterexample :
    (add_order (create_order_book 4) 0 BUY "A" 0 10).1 = 1 ∧
    (add_order (create_order_book 4) 0 BUY "A" 0 10).2.1.buyOrders.getD 0 [] =
      [{ side := BUY, ticker := "A", qty := 0, price := 10, id := 1, seq := 1 }] ∧
    (add_order (create_order_book 4) 0 BUY "A" 0 10).2.1.tickerCount = 1 ∧
    (add_order (create_order_book 4) 0 BUY "A" 0 10).2.1.nextOrderId = 2 :=
  ⟨rfl, rfl, rfl, rfl⟩

/-- C1 (amended): `add_order` performs no quantity/price validation: a
submission with non-positive quantity or non-positive price whose ticker
resolves (already registered, or registrable because the registry has
spare capacity) is processed exactly like a valid one on any
well-formed book — it returns the fresh order id (never the error value
`-1`), advances the id and sequence counters by one, leaves the resolved
slot holding the ticker (registering it if new), and appends the order,
carrying the unvalidated quantity and price, to that slot's side
collection. -/
theorem C1_no_validation (book : OrderBook) (seq ty : Nat) (ticker : String)
    (q p : Int) (idx : Nat) (hinv : q ≤ 0 ∨ p ≤ 0)
    (hres : (get_ticker_index book ticker).1 = some idx)
    (hcnt : book.tickerCount ≤ book.tickerSymbols.length)
    (hwb : book.tickerSymbols.length ≤ book.buyOrders.length)
    (hws : book.tickerSymbols.length ≤ book.sellOrders.length) :
    (add_order book seq ty ticker q p).1 = (book.nextOrderId : Int) ∧
    (add_order book seq ty ticker q p).1 ≠ -1 ∧
    (add_order book seq ty ticker q p).2.1.nextOrderId = book.nextOrderId + 1 ∧
    (add_order book seq ty ticker q p).2.2 = seq + 1 ∧
    (add_order book seq ty ticker q p).2.1.tickerSymbols.getD idx none = some ticker ∧
    (ty = BUY →
      (add_order book seq ty ticker q p).2.1.buyOrders.getD idx [] =
        book.buyOrders.getD idx [] ++
          [{ side := ty, ticker := ticker, qty := q, price := p, id := book.nextOrderId, seq := seq + 1 }]) ∧
    (ty ≠ BUY →
      (add_order book seq ty ticker q p).2.1.sellOrders.getD idx [] =
        book.sellOrders.getD idx [] ++
          [{ side := ty, ticker := ticker, qty := q, price := p, id := book.nextOrderId, seq := seq + 1 }]) := by
  have hfst : (get_ticker_index { book with nextOrderId := book.nextOrderId + 1 } ticker).1 =
      some idx := by
    rw [get_ticker_index_fst_eq { book with nextOrderId := book.nextOrderId + 1 } book ticker
      rfl rfl]
    exact hres
  rcases hgt : get_ticker_index { book with nextOrderId := book.nextOrderId + 1 } ticker with
    ⟨r, book2⟩
  rw [hgt] at hfst
  replace hfst : r = some idx := hfst
  subst hfst
  obtain ⟨hidx, hbuy2, hsell2, hnid2, hslot2⟩ :=
    get_ticker_index_some { book with nextOrderId := book.nextOrderId + 1 } ticker idx book2
      hgt hcnt
  have hb2 : book2.buyOrders = book.buyOrders := hbuy2
  have hs2 : book2.sellOrders = book.sellOrders := hsell2
  have hn2 : book2.nextOrderId = book.nextOrderId + 1 := hnid2
  have hx2 : idx < book.tickerSymbols.length := hidx
  by_cases hty : ty = BUY
  · have hmain : add_order book seq ty ticker q p =
        ((book.nextOrderId : Int),
          { book2 with buyOrders := book2.buyOrders.set idx (book2.buyOrders.getD idx [] ++ [{ side := ty, ticker := ticker, qty := q, price := p, id := book.nextOrderId, seq := seq + 1 }]) },
          seq + 1) := by
      simp only [add_order]
      rw [hgt]
      simp [hty]
    rw [hmain]
    refine ⟨rfl, by omega, hn2, rfl, hslot2, fun _ => ?_, fun hne => absurd hty hne⟩
    show (book2.buyOrders.set idx (book2.buyOrders.getD idx [] ++ [{ side := ty, ticker := ticker, qty := q, price := p, id := book.nextOrderId, seq := seq + 1 }])).getD idx [] = book.buyOrders.getD idx [] ++ [{ side := ty, ticker := ticker, qty := q, price := p, id := book.nextOrderId, seq := seq + 1 }]
    rw [hb2]
    exact getD_set_lt _ _ _ _ (Nat.lt_of_lt_of_le hx2 hwb)
  · have hmain : add_order book seq ty ticker q p =
        ((book.nextOrderId : Int),
          { book2 with sellOrders := book2.sellOrders.set idx (book2.sellOrders.getD idx [] ++ [{ side := ty, ticker := ticker, qty := q, price := p, id := book.nextOrderId, seq := seq + 1 }]) },
          seq + 1) := by
      simp only [add_order]
      rw [hgt]
      simp [hty]
    rw [hmain]
    refine ⟨rfl, by omega, hn2, rfl, hslot2, fun he => absurd he hty, fun _ => ?_⟩
    show (book2.sellOrders.set idx (book2.sellOrders.getD idx [] ++ [{ side := ty, ticker := ticker, qty := q, price := p, id := book.nextOrderId, seq := seq + 1 }])).getD idx [] = book.sellOrders.getD idx [] ++ [{ side := ty, ticker := ticker, qty := q, price := p, id := book.nextOrderId, seq := seq + 1 }]
    rw [hs2]
    exact getD_set_lt _ _ _ _ (Nat.lt_of_lt_of_le hx2 hws)

theorem C1_witness :
    (((0 : Int) ≤ 0 ∨ (10 : Int) ≤ 0) ∧
      (get_ticker_index (add_order (create_order_book 1) 0 BUY "A" 5 10).2.1 "A").1 =
        some 0) ∧
    ((add_order (add_order (create_order_book 1) 0 BUY "A" 5 10).2.1 1 BUY "A" 0 10).1 =
        ((add_order (create_order_book 1) 0 BUY "A" 5 10).2.1.nextOrderId : Int) ∧
      (add_order (add_order (create_order_book 1) 0 BUY "A" 5 10).2.1 1 BUY "A" 0 10).1 ≠
        -1 ∧
      (add_order (add_order (create_order_book 1) 0 BUY "A" 5 10).2.1 1 BUY "A" 0
          10).2.1.nextOrderId =
        (add_order (create_order_book 1) 0 BUY "A" 5 10).2.1.nextOrderId + 1 ∧
      (add_order (add_order (create_order_book 1) 0 BUY "A" 5 10).2.1 1 BUY "A" 0 10).2.2 =
        1 + 1 ∧
      (add_order (add_order (create_order_book 1) 0 BUY "A" 5 10).2.1 1 BUY "A" 0
          10).2.1.tickerSymbols.getD 0 none = some "A" ∧
      (BUY = BUY →
        (add_order (add_order (create_order_book 1) 0 BUY "A" 5 10).2.1 1 BUY "A" 0
            10).2.1.buyOrders.getD 0 [] =
          (add_order (create_order_book 1) 0 BUY "A" 5 10).2.1.buyOrders.getD 0 [] ++
            [{ side := BUY, ticker := "A", qty := 0, price := 10, id := (add_order (create_order_book 1) 0 BUY "A" 5 10).2.1.nextOrderId, seq := 1 + 1 }]) ∧
      (BUY ≠ BUY →
        (add_order (add_order (create_order_book 1) 0 BUY "A" 5 10).2.1 1 BUY "A" 0
            10).2.1.sellOrders.getD 0 [] =
          (add_order (create_order_book 1) 0 BUY "A" 5 10).2.1.sellOrders.getD 0 [] ++
            [{ side := BUY, ticker := "A", qty := 0, price := 10, id := (add_order (create_order_book 1) 0 BUY "A" 5 10).2.1.nextOrderId, seq := 1 + 1 }])) :=
  ⟨⟨Or.inl (by decide), by decide⟩,
    C1_no_validation (add_order (create_order_book 1) 0 BUY "A" 5 10).2.1 1 BUY "A" 0 10 0
      (Or.inl (by decide)) (by decide) (by decide) (by decide) (by decide)⟩

/-- C2 counterexample: with a capacity-1 book already holding ticker "A"
(`next_order_id = 2`), submitting an order for unseen ticker "B" returns
the error `-1`, yet `next_order_id` has advanced to `3` — the book is not
exactly what it was before the call. -/
theorem C2_counterexample :
    (add_order (add_order (create_order_book 1) 0 BUY "A" 5 10).2.1 1 BUY "B" 5 10).1 = -1 ∧
    (add_order (create_order_book 1) 0 BUY "A" 5 10).2.1.nextOrderId = 2 ∧
    (add_order (add_order (create_order_book 1) 0 BUY "A" 5 10).2.1 1 BUY "B" 5 10).2.1.nextOrderId
      = 3 :=
  ⟨rfl, rfl, rfl⟩

/-- C2 (amended): submitting an unseen ticker on a book whose registry is
at capacity fails with the error value `-1` and leaves the registry count,
slot assignments and resting collections unchanged, but the next-order-id
counter and the global sequence counter each advance by one. -/
theorem C2_capacity_reject (book : OrderBook) (seq ty : Nat) (ticker : String)
    (q p : Int)
    (hfull : book.tickerSymbols.length ≤ book.tickerCount)
    (hunseen : ∀ i, i < book.tickerCount → book.tickerSymbols.getD i none ≠ some ticker) :
    add_order book seq ty ticker q p =
      (-1, { book with nextOrderId := book.nextOrderId + 1 }, seq + 1) :=
  add_order_atCapacity book seq ty ticker q p hfull hunseen

theorem C2_witness :
    ((add_order (create_order_book 1) 0 BUY "A" 5 10).2.1.tickerSymbols.length ≤
        (add_order (create_order_book 1) 0 BUY "A" 5 10).2.1.tickerCount) ∧
    add_order (add_order (create_order_book 1) 0 BUY "A" 5 10).2.1 1 BUY "B" 5 10 =
      (-1,
        { (add_order (create_order_book 1) 0 BUY "A" 5 10).2.1 with
            nextOrderId :=
              (add_order (create_order_book 1) 0 BUY "A" 5 10).2.1.nextOrderId + 1 },
        1 + 1) :=
  ⟨by decide,
    C2_capacity_reject (add_order (create_order_book 1) 0 BUY "A" 5 10).2.1 1 BUY "B" 5 10
      (by decide) (by decide)⟩

/-- C10: the id and sequence counters are consumed unconditionally: every
`add_order` call advances `next_order_id` and the global sequence by one,
and in particular a capacity rejection (return value `-1`) still consumes
them, so those numbers are never reissued to a later order. -/
theorem C10_counters :
    (∀ (book : OrderBook) (seq ty : Nat) (t : String) (q p : Int),
        (add_order book seq ty t q p).2.1.nextOrderId = book.nextOrderId + 1 ∧
        (add_order book seq ty t q p).2.2 = seq + 1) ∧
    (∀ (book : OrderBook) (seq ty : Nat) (t : String) (q p : Int),
        book.tickerSymbols.length ≤ book.tickerCount →
        (∀ i, i < book.tickerCount → book.tickerSymbols.getD i none ≠ some t) →
        (add_order book seq ty t q p).1 = -1) := by
  constructor
  · intro book seq ty t q p
    have hpres :=
      get_ticker_index_preserves { book with nextOrderId := book.nextOrderId + 1 } t
    simp only [add_order]
    rcases hgt : get_ticker_index { book with nextOrderId := book.nextOrderId + 1 } t with
      ⟨r, book2⟩
    rw [hgt] at hpres
    cases r with
    | none => exact ⟨hpres.2.2, rfl⟩
    | some idx =>
      by_cases hty : ty = BUY <;> simp [hty] <;> exact hpres.2.2
  · intro book seq ty t q p hfull hunseen
    rw [add_order_atCapacity book seq ty t q p hfull hunseen]

theorem C10_witness :
    ((add_order (create_order_book 1) 0 BUY "A" 5 10).2.1.tickerSymbols.length ≤
        (add_order (create_order_book 1) 0 BUY "A" 5 10).2.1.tickerCount) ∧
    (add_order (add_order (create_order_book 1) 0 BUY "A" 5 10).2.1 1 SELL "B" 5 10).1 = -1 :=
  ⟨by decide,
    C10_counters.2 (add_order (create_order_book 1) 0 BUY "A" 5 10).2.1 1 SELL "B" 5 10
      (by decide) (by decide)⟩

/-! ## Best-order selection lemmas -/

/-- `(p, s)` beats-or-equals `(q, t)` under comparator `cmp`:
strictly better price, or equal price and no later sequence. -/
def Dominates (cmp : Int → Int → Bool) (p q : Int × Nat) : Prop :=
  cmp p.1 q.1 = true ∨ (p.1 = q.1 ∧ p.2 ≤ q.2)

theorem dominates_refl (cmp : Int → Int → Bool) (p : Int × Nat) : Dominates cmp p p :=
  Or.inr ⟨rfl, Nat.le_refl _⟩

theorem dominates_trans (cmp : Int → Int → Bool)
    (htrans : ∀ a b c, cmp a b = true → cmp b c = true → cmp a c = true)
    {p q r : Int × Nat} (h1 : Dominates cmp p q) (h2 : Dominates cmp q r) :
    Dominates cmp p r := by
  rcases h1 with h1 | ⟨he1, hs1⟩
  · rcases h2 with h2 | ⟨he2, hs2⟩
    · exact Or.inl (htrans _ _ _ h1 h2)
    · exact Or.inl (he2 ▸ h1)
  · rcases h2 with h2 | ⟨he2, hs2⟩
    · exact Or.inl (he1 ▸ h2)
    · exact Or.inr ⟨he1.trans he2, hs1.trans hs2⟩

theorem findBestGo_spec (cmp : Int → Int → Bool)
    (htrans : ∀ a b c, cmp a b = true → cmp b c = true → cmp a c = true)
    (htotal : ∀ a b, cmp a b = false → cmp b a = true ∨ a = b)
    (completed : List Nat) :
    ∀ (l : List Order) (i : Nat) (best : Option (Nat × Int × Nat)) (bi : Nat) (bp : Int)
      (bs : Nat), findBestGo cmp completed l i best = some (bi, bp, bs) →
      (best = some (bi, bp, bs) ∨
        ∃ j, ∃ hj : j < l.length, bi = i + j ∧ (i + j) ∉ completed ∧
          (l.get ⟨j, hj⟩).price = bp ∧ (l.get ⟨j, hj⟩).seq = bs) ∧
      (∀ j (hj : j < l.length), (i + j) ∉ completed →
        Dominates cmp (bp, bs) ((l.get ⟨j, hj⟩).price, (l.get ⟨j, hj⟩).seq)) ∧
      (∀ b0 p0 s0, best = some (b0, p0, s0) → Dominates cmp (bp, bs) (p0, s0))
  | [], i, best, bi, bp, bs, h => by
    simp only [findBestGo] at h
    refine ⟨Or.inl h, ?_, ?_⟩
    · intro j hj
      exact absurd hj (Nat.not_lt_zero j)
    · intro b0 p0 s0 hb
      rw [h] at hb
      injection hb with hb'
      injection hb' with h1 h2
      injection h2 with h2 h3
      exact h2 ▸ h3 ▸ dominates_refl cmp (bp, bs)
  | o :: rest, i, best, bi, bp, bs, h => by
    simp only [findBestGo] at h
    by_cases hmem : i ∈ completed
    · rw [if_pos hmem] at h
      obtain ⟨hsound, hdom, hbest⟩ := findBestGo_spec cmp htrans htotal completed
        rest (i + 1) best bi bp bs h
      refine ⟨?_, ?_, hbest⟩
      · rcases hsound with hs | ⟨j, hj, hbi, hnc, hp, hsq⟩
        · exact Or.inl hs
        · exact Or.inr ⟨j + 1, Nat.succ_lt_succ hj, by omega,
            by rw [show i + (j + 1) = i + 1 + j by omega]; exact hnc, hp, hsq⟩
      · intro j hj hnc
        match j, hj with
        | 0, _ => exact absurd hnc (by simpa using hmem)
        | j + 1, hj =>
          have := hdom j (Nat.lt_of_succ_lt_succ hj)
            (by rw [show i + 1 + j = i + (j + 1) by omega]; exact hnc)
          simpa using this
    · rw [if_neg hmem] at h
      match hbsteq : best with
      | none =>
        replace h : findBestGo cmp completed rest (i + 1) (some (i, o.price, o.seq)) =
          some (bi, bp, bs) := h
        obtain ⟨hsound, hdom, hbest⟩ := findBestGo_spec cmp htrans htotal completed
          rest (i + 1) (some (i, o.price, o.seq)) bi bp bs h
        refine ⟨?_, ?_, ?_⟩
        · rcases hsound with hs | ⟨j, hj, hbi, hnc, hp, hsq⟩
          · injection hs with hs'
            injection hs' with h1 h2
            injection h2 with h2 h3
            exact Or.inr ⟨0, Nat.succ_pos _, by omega, by simpa using hmem,
              by simp [← h2], by simp [← h3]⟩
          · exact Or.inr ⟨j + 1, Nat.succ_lt_succ hj, by omega,
              by rw [show i + (j + 1) = i + 1 + j by omega]; exact hnc, hp, hsq⟩
        · intro j hj hnc
          match j, hj with
          | 0, _ => simpa using hbest i o.price o.seq rfl
          | j + 1, hj =>
            have := hdom j (Nat.lt_of_succ_lt_succ hj)
              (by rw [show i + 1 + j = i + (j + 1) by omega]; exact hnc)
            simpa using this
        · intro b0 p0 s0 hb
          simp [hbsteq] at hb
      | some (b0, p0, s0) =>
        replace h :
            (if cmp o.price p0 || (o.price == p0 && decide (o.seq < s0)) then
              findBestGo cmp completed rest (i + 1) (some (i, o.price, o.seq))
            else findBestGo cmp completed rest (i + 1) (some (b0, p0, s0))) =
            some (bi, bp, bs) := h
        by_cases hcond : (cmp o.price p0 || (o.price == p0 && decide (o.seq < s0))) = true
        · rw [if_pos hcond] at h
          obtain ⟨hsound, hdom, hbest⟩ := findBestGo_spec cmp htrans htotal completed
            rest (i + 1) (some (i, o.price, o.seq)) bi bp bs h
          have hdomnew : Dominates cmp (bp, bs) (o.price, o.seq) :=
            hbest i o.price o.seq rfl
          have hold : Dominates cmp (o.price, o.seq) (p0, s0) := by
            rcases Bool.or_eq_true_iff.mp hcond with hc | hc
            · exact Or.inl hc
            · rcases Bool.and_eq_true_iff.mp hc with ⟨he, hs⟩
              exact Or.inr ⟨beq_iff_eq.mp he, Nat.le_of_lt (by simpa using hs)⟩
          refine ⟨?_, ?_, ?_⟩
          · rcases hsound with hs | ⟨j, hj, hbi, hnc, hp, hsq⟩
            · injection hs with hs'
              injection hs' with h1 h2
              injection h2 with h2 h3
              exact Or.inr ⟨0, Nat.succ_pos _, by omega, by simpa using hmem,
                by simp [← h2], by simp [← h3]⟩
            · exact Or.inr ⟨j + 1, Nat.succ_lt_succ hj, by omega,
                by rw [show i + (j + 1) = i + 1 + j by omega]; exact hnc, hp, hsq⟩
          · intro j hj hnc
            match j, hj with
            | 0, _ => simpa using hdomnew
            | j + 1, hj =>
              have := hdom j (Nat.lt_of_succ_lt_succ hj)
                (by rw [show i + 1 + j = i + (j + 1) by omega]; exact hnc)
              simpa using this
          · intro b1 p1 s1 hb
            injection hb with hb'
            injection hb' with h1 h2
            injection h2 with h2 h3
            exact h2 ▸ h3 ▸ dominates_trans cmp htrans hdomnew hold
        · rw [if_neg hcond] at h
          obtain ⟨hsound, hdom, hbest⟩ := findBestGo_spec cmp htrans htotal completed
            rest (i + 1) (some (b0, p0, s0)) bi bp bs h
          have hdomold : Dominates cmp (bp, bs) (p0, s0) := hbest b0 p0 s0 rfl
          have hskip : Dominates cmp (p0, s0) (o.price, o.seq) := by
            have hc1 : cmp o.price p0 = false := by
              cases hx : cmp o.price p0
              · rfl
              · exact absurd (Bool.or_eq_true_iff.mpr (Or.inl hx)) hcond
            rcases htotal o.price p0 hc1 with ht | ht
            · exact Or.inl ht
            · refine Or.inr ⟨ht.symm, ?_⟩
              by_cases hs : o.seq < s0
              · exact absurd (Bool.or_eq_true_iff.mpr (Or.inr
                  (Bool.and_eq_true_iff.mpr ⟨beq_iff_eq.mpr ht, by simpa using hs⟩))) hcond
              · omega
          refine ⟨?_, ?_, ?_⟩
          · rcases hsound with hs | ⟨j, hj, hbi, hnc, hp, hsq⟩
            · exact Or.inl (hbsteq ▸ hs)
            · exact Or.inr ⟨j + 1, Nat.succ_lt_succ hj, by omega,
                by rw [show i + (j + 1) = i + 1 + j by omega]; exact hnc, hp, hsq⟩
          · intro j hj hnc
            match j, hj with
            | 0, _ => simpa using dominates_trans cmp htrans hdomold hskip
            | j + 1, hj =>
              have := hdom j (Nat.lt_of_succ_lt_succ hj)
                (by rw [show i + 1 + j = i + (j + 1) by omega]; exact hnc)
              simpa using this
          · intro b1 p1 s1 hb
            injection hb with hb'
            injection hb' with h1 h2
            injection h2 with h2 h3
            exact h2 ▸ h3 ▸ hdomold

theorem cmpGT_trans : ∀ a b c : Int, cmpGT a b = true → cmpGT b c = true → cmpGT a c = true := by
  intro a b c h1 h2
  simp only [cmpGT, decide_eq_true_eq] at *
  omega

theorem cmpGT_total : ∀ a b : Int, cmpGT a b = false → cmpGT b a = true ∨ a = b := by
  intro a b h
  simp only [cmpGT, decide_eq_true_eq, decide_eq_false_iff_not] at *
  omega

theorem cmpLT_trans : ∀ a b c : Int, cmpLT a b = true → cmpLT b c = true → cmpLT a c = true := by
  intro a b c h1 h2
  simp only [cmpLT, decide_eq_true_eq] at *
  omega

theorem cmpLT_total : ∀ a b : Int, cmpLT a b = false → cmpLT b a = true ∨ a = b := by
  intro a b h
  simp only [cmpLT, decide_eq_true_eq, decide_eq_false_iff_not] at *
  omega

theorem find_best_order_spec (cmp : Int → Int → Bool)
    (htrans : ∀ a b c, cmp a b = true → cmp b c = true → cmp a c = true)
    (htotal : ∀ a b, cmp a b = false → cmp b a = true ∨ a = b)
    (orders : List Order) (completed : List Nat) (bi : Nat)
    (h : find_best_order orders completed cmp = some bi) :
    ∃ hbi : bi < orders.length,
      bi ∉ completed ∧
      ∀ j (hj : j < orders.length), j ∉ completed →
        Dominates cmp ((orders.get ⟨bi, hbi⟩).price, (orders.get ⟨bi, hbi⟩).seq)
          ((orders.get ⟨j, hj⟩).price, (orders.get ⟨j, hj⟩).seq) := by
  unfold find_best_order at h
  rcases hgo : findBestGo cmp completed orders 0 none with _ | ⟨bi', bp, bs⟩
  · rw [hgo] at h
    simp at h
  · rw [hgo] at h
    replace h : some bi' = some bi := h
    injection h with h
    subst h
    obtain ⟨hsound, hdom, _⟩ :=
      findBestGo_spec cmp htrans htotal completed orders 0 none bi' bp bs hgo
    rcases hsound with hs | ⟨j, hj, hbi, hnc, hp, hsq⟩
    · simp at hs
    · have hbij : bi' = j := by omega
      subst hbij
      have hblt : bi' < orders.length := hj
      refine ⟨hblt, by simpa using hnc, ?_⟩
      intro k hk hknc
      have := hdom k hk (by simpa using hknc)
      rw [← hp, ← hsq] at this
      exact this

theorem findBestGo_none (cmp : Int → Int → Bool) (completed : List Nat) :
    ∀ (l : List Order) (i : Nat) (best : Option (Nat × Int × Nat)),
      findBestGo cmp completed l i best = none →
      best = none ∧ ∀ j, j < l.length → (i + j) ∈ completed
  | [], i, best, h => by
    simp only [findBestGo] at h
    exact ⟨h, fun j hj => absurd hj (Nat.not_lt_zero j)⟩
  | o :: rest, i, best, h => by
    simp only [findBestGo] at h
    by_cases hmem : i ∈ completed
    · rw [if_pos hmem] at h
      obtain ⟨hb, hall⟩ := findBestGo_none cmp completed rest (i + 1) best h
      refine ⟨hb, ?_⟩
      intro j hj
      match j, hj with
      | 0, _ => simpa using hmem
      | j + 1, hj =>
        have := hall j (Nat.lt_of_succ_lt_succ hj)
        rw [show i + (j + 1) = i + 1 + j by omega]
        exact this
    · rw [if_neg hmem] at h
      match hbsteq : best with
      | none =>
        replace h : findBestGo cmp completed rest (i + 1) (some (i, o.price, o.seq)) =
          none := h
        obtain ⟨hb, _⟩ := findBestGo_none cmp completed rest (i + 1) _ h
        simp at hb
      | some (b0, p0, s0) =>
        replace h :
            (if cmp o.price p0 || (o.price == p0 && decide (o.seq < s0)) then
              findBestGo cmp completed rest (i + 1) (some (i, o.price, o.seq))
            else findBestGo cmp completed rest (i + 1) (some (b0, p0, s0))) = none := h
        by_cases hcond : (cmp o.price p0 || (o.price == p0 && decide (o.seq < s0))) = true
        · rw [if_pos hcond] at h
          obtain ⟨hb, _⟩ := findBestGo_none cmp completed rest (i + 1) _ h
          simp at hb
        · rw [if_neg hcond] at h
          obtain ⟨hb, _⟩ := findBestGo_none cmp completed rest (i + 1) _ h
          simp at hb

theorem find_best_order_none (cmp : Int → Int → Bool) (orders : List Order)
    (completed : List Nat) (h : find_best_order orders completed cmp = none) :
    ∀ j, j < orders.length → j ∈ completed := by
  unfold find_best_order at h
  rcases hgo : findBestGo cmp completed orders 0 none with _ | b
  · intro j hj
    have := (findBestGo_none cmp completed orders 0 none hgo).2 j hj
    simpa using this
  · rw [hgo] at h
    simp at h

theorem find_best_order_isSome (cmp : Int → Int → Bool) (orders : List Order)
    (completed : List Nat) (j : Nat) (hj : j < orders.length) (hnc : j ∉ completed) :
    ∃ bi, find_best_order orders completed cmp = some bi := by
  rcases hfb : find_best_order orders completed cmp with _ | bi
  · exact absurd (find_best_order_none cmp orders completed hfb j hj) hnc
  · exact ⟨bi, rfl⟩

/-- C5: the selection used by the crossing loop is price-time priority.
`match_orders` selects buys with `find_best_order _ _ cmpGT` and sells
with `find_best_order _ _ cmpLT`; whenever selection succeeds, the chosen
order is not yet marked completed and, against every other non-completed
order, has strictly better price or equal price and a no-later sequence
number (so of two equal-price orders the earlier-submitted one is chosen). -/
theorem C5_best_selection :
    (∀ (orders : List Order) (completed : List Nat) (bi : Nat),
      find_best_order orders completed cmpGT = some bi →
      ∃ hbi : bi < orders.length, bi ∉ completed ∧
        ∀ j (hj : j < orders.length), j ∉ completed →
          ((orders.get ⟨j, hj⟩).price < (orders.get ⟨bi, hbi⟩).price ∨
            ((orders.get ⟨bi, hbi⟩).price = (orders.get ⟨j, hj⟩).price ∧
              (orders.get ⟨bi, hbi⟩).seq ≤ (orders.get ⟨j, hj⟩).seq))) ∧
    (∀ (orders : List Order) (completed : List Nat) (si : Nat),
      find_best_order orders completed cmpLT = some si →
      ∃ hsi : si < orders.length, si ∉ completed ∧
        ∀ j (hj : j < orders.length), j ∉ completed →
          ((orders.get ⟨si, hsi⟩).price < (orders.get ⟨j, hj⟩).price ∨
            ((orders.get ⟨si, hsi⟩).price = (orders.get ⟨j, hj⟩).price ∧
              (orders.get ⟨si, hsi⟩).seq ≤ (orders.get ⟨j, hj⟩).seq))) := by
  constructor
  · intro orders completed bi h
    obtain ⟨hbi, hnc, hdom⟩ := find_best_order_spec cmpGT cmpGT_trans cmpGT_total
      orders completed bi h
    refine ⟨hbi, hnc, ?_⟩
    intro j hj hjnc
    rcases hdom j hj hjnc with hd | hd
    · exact Or.inl (by simpa [cmpGT] using hd)
    · exact Or.inr hd
  · intro orders completed si h
    obtain ⟨hsi, hnc, hdom⟩ := find_best_order_spec cmpLT cmpLT_trans cmpLT_total
      orders completed si h
    refine ⟨hsi, hnc, ?_⟩
    intro j hj hjnc
    rcases hdom j hj hjnc with hd | hd
    · exact Or.inl (by simpa [cmpLT] using hd)
    · exact Or.inr hd

theorem C5_witness :
    ∃ hbi : 0 < ([{ side := BUY, ticker := "A", qty := 5, price := 10, id := 1, seq := 1 },
        { side := BUY, ticker := "A", qty := 5, price := 10, id := 2, seq := 2 }] :
          List Order).length,
      0 ∉ ([] : List Nat) ∧
      ∀ j (hj : j < ([{ side := BUY, ticker := "A", qty := 5, price := 10, id := 1, seq := 1 },
          { side := BUY, ticker := "A", qty := 5, price := 10, id := 2, seq := 2 }] :
            List Order).length), j ∉ ([] : List Nat) →
        ((([{ side := BUY, ticker := "A", qty := 5, price := 10, id := 1, seq := 1 },
            { side := BUY, ticker := "A", qty := 5, price := 10, id := 2, seq := 2 }] :
              List Order).get ⟨j, hj⟩).price <
          (([{ side := BUY, ticker := "A", qty := 5, price := 10, id := 1, seq := 1 },
            { side := BUY, ticker := "A", qty := 5, price := 10, id := 2, seq := 2 }] :
              List Order).get ⟨0, hbi⟩).price ∨
          ((([{ side := BUY, ticker := "A", qty := 5, price := 10, id := 1, seq := 1 },
            { side := BUY, ticker := "A", qty := 5, price := 10, id := 2, seq := 2 }] :
              List Order).get ⟨0, hbi⟩).price =
            (([{ side := BUY, ticker := "A", qty := 5, price := 10, id := 1, seq := 1 },
              { side := BUY, ticker := "A", qty := 5, price := 10, id := 2, seq := 2 }] :
                List Order).get ⟨j, hj⟩).price ∧
            (([{ side := BUY, ticker := "A", qty := 5, price := 10, id := 1, seq := 1 },
              { side := BUY, ticker := "A", qty := 5, price := 10, id := 2, seq := 2 }] :
                List Order).get ⟨0, hbi⟩).seq ≤
              (([{ side := BUY, ticker := "A", qty := 5, price := 10, id := 1, seq := 1 },
                { side := BUY, ticker := "A", qty := 5, price := 10, id := 2, seq := 2 }] :
                  List Order).get ⟨j, hj⟩).seq)) :=
  C5_best_selection.1
    [{ side := BUY, ticker := "A", qty := 5, price := 10, id := 1, seq := 1 },
      { side := BUY, ticker := "A", qty := 5, price := 10, id := 2, seq := 2 }] [] 0 rfl

/-! ## Crossing-loop unfolding lemmas -/

theorem matchLoop_eq_stopB (fuel : Nat) (buys sells : List Order) (cb cs : List Nat)
    (acc : List MatchRecord) (h : find_best_order buys cb cmpGT = none) :
    matchLoop (fuel + 1) buys sells cb cs acc = some ⟨acc, buys, sells, cb, cs⟩ := by
  simp only [matchLoop]
  rw [h]

theorem matchLoop_eq_stopS (fuel : Nat) (buys sells : List Order) (cb cs : List Nat)
    (acc : List MatchRecord) (bi : Nat) (hb : find_best_order buys cb cmpGT = some bi)
    (hs : find_best_order sells cs cmpLT = none) :
    matchLoop (fuel + 1) buys sells cb cs acc = some ⟨acc, buys, sells, cb, cs⟩ := by
  simp only [matchLoop]
  rw [hb, hs]

theorem matchLoop_eq_nocross (fuel : Nat) (buys sells : List Order) (cb cs : List Nat)
    (acc : List MatchRecord) (bi si : Nat)
    (hb : find_best_order buys cb cmpGT = some bi)
    (hs : find_best_order sells cs cmpLT = some si)
    (hlt : (buys.getD bi default).price < (sells.getD si default).price) :
    matchLoop (fuel + 1) buys sells cb cs acc = some ⟨acc, buys, sells, cb, cs⟩ := by
  simp only [matchLoop]
  rw [hb, hs]
  simp only [if_neg (not_le.mpr hlt)]

theorem matchLoop_eq_step (fuel : Nat) (buys sells : List Order) (cb cs : List Nat)
    (acc : List MatchRecord) (bi si : Nat) (buy sell : Order) (q : Int)
    (hb : find_best_order buys cb cmpGT = some bi)
    (hs : find_best_order sells cs cmpLT = some si)
    (hbuy : buy = buys.getD bi default) (hsell : sell = sells.getD si default)
    (hq : q = min buy.qty sell.qty)
    (hle : sell.price ≤ buy.price) :
    matchLoop (fuel + 1) buys sells cb cs acc =
      matchLoop fuel (buys.set bi { buy with qty := buy.qty - q })
        (sells.set si { sell with qty := sell.qty - q })
        (if buy.qty - q = 0 then cb ++ [bi] else cb)
        (if sell.qty - q = 0 then cs ++ [si] else cs)
        (acc ++ [⟨buy.id, sell.id, buy.ticker, q, sell.price⟩]) := by
  subst hbuy hsell hq
  simp only [matchLoop]
  rw [hb, hs]
  simp only [if_pos hle]

theorem matchLoop_inv (fuel : Nat) (buys sells : List Order) (cb cs : List Nat)
    (acc : List MatchRecord) (out : LoopOut)
    (h : matchLoop (fuel + 1) buys sells cb cs acc = some out) :
    (out = ⟨acc, buys, sells, cb, cs⟩ ∧
      (find_best_order buys cb cmpGT = none ∨
        find_best_order sells cs cmpLT = none ∨
        ∃ bi si, find_best_order buys cb cmpGT = some bi ∧
          find_best_order sells cs cmpLT = some si ∧
          (buys.getD bi default).price < (sells.getD si default).price)) ∨
    (∃ bi si, find_best_order buys cb cmpGT = some bi ∧
      find_best_order sells cs cmpLT = some si ∧
      (sells.getD si default).price ≤ (buys.getD bi default).price ∧
      matchLoop fuel (buys.set bi { (buys.getD bi default) with qty := (buys.getD bi default).qty - min (buys.getD bi default).qty (sells.getD si default).qty }) (sells.set si { (sells.getD si default) with qty := (sells.getD si default).qty - min (buys.getD bi default).qty (sells.getD si default).qty }) (if (buys.getD bi default).qty - min (buys.getD bi default).qty (sells.getD si default).qty = 0 then cb ++ [bi] else cb) (if (sells.getD si default).qty - min (buys.getD bi default).qty (sells.getD si default).qty = 0 then cs ++ [si] else cs) (acc ++ [⟨(buys.getD bi default).id, (sells.getD si default).id, (buys.getD bi default).ticker, min (buys.getD bi default).qty (sells.getD si default).qty, (sells.getD si default).price⟩]) = some out) := by
  rcases hfb : find_best_order buys cb cmpGT with _ | bi
  · rw [matchLoop_eq_stopB fuel buys sells cb cs acc hfb] at h
    injection h with h
    exact Or.inl ⟨h.symm, Or.inl rfl⟩
  · rcases hfs : find_best_order sells cs cmpLT with _ | si
    · rw [matchLoop_eq_stopS fuel buys sells cb cs acc bi hfb hfs] at h
      injection h with h
      exact Or.inl ⟨h.symm, Or.inr (Or.inl rfl)⟩
    · by_cases hle : (sells.getD si default).price ≤ (buys.getD bi default).price
      · rw [matchLoop_eq_step fuel buys sells cb cs acc bi si _ _ _ hfb hfs rfl rfl rfl hle] at h
        exact Or.inr ⟨bi, si, rfl, rfl, hle, h⟩
      · rw [matchLoop_eq_nocross fuel buys sells cb cs acc bi si hfb hfs (not_le.mp hle)] at h
        injection h with h
        exact Or.inl ⟨h.symm, Or.inr (Or.inr ⟨bi, si, rfl, rfl, not_le.mp hle⟩)⟩

theorem matchLoop_length :
    ∀ (fuel : Nat) (buys sells : List Order) (cb cs : List Nat) (acc : List MatchRecord)
      (out : LoopOut), matchLoop fuel buys sells cb cs acc = some out →
      out.buys.length = buys.length ∧ out.sells.length = sells.length
  | 0, _, _, _, _, _, _, h => by exact absurd h (by simp [matchLoop])
  | fuel + 1, buys, sells, cb, cs, acc, out, h => by
    rcases matchLoop_inv fuel buys sells cb cs acc out h with ⟨hout, _⟩ | ⟨bi, si, _, _, _, hrec⟩
    · rw [hout]
      exact ⟨rfl, rfl⟩
    · have := matchLoop_length fuel _ _ _ _ _ out hrec
      simpa using this

theorem matchLoop_exit :
    ∀ (fuel : Nat) (buys sells : List Order) (cb cs : List Nat) (acc : List MatchRecord)
      (out : LoopOut), matchLoop fuel buys sells cb cs acc = some out →
      find_best_order out.buys out.cb cmpGT = none ∨
      find_best_order out.sells out.cs cmpLT = none ∨
      ∃ bi si, find_best_order out.buys out.cb cmpGT = some bi ∧
        find_best_order out.sells out.cs cmpLT = some si ∧
        (out.buys.getD bi default).price < (out.sells.getD si default).price
  | 0, _, _, _, _, _, _, h => by exact absurd h (by simp [matchLoop])
  | fuel + 1, buys, sells, cb, cs, acc, out, h => by
    rcases matchLoop_inv fuel buys sells cb cs acc out h with ⟨hout, hstop⟩ | ⟨bi, si, _, _, _, hrec⟩
    · rw [hout]
      exact hstop
    · exact matchLoop_exit fuel _ _ _ _ _ out hrec

theorem nodup_bounded_length {l : List Nat} {n : Nat} (hnd : l.Nodup)
    (hbd : ∀ x ∈ l, x < n) : l.length ≤ n := by
  classical
  have hcard : l.toFinset.card = l.length := List.toFinset_card_of_nodup hnd
  have hsub : l.toFinset ⊆ Finset.range n := by
    intro x hx
    exact Finset.mem_range.mpr (hbd x (List.mem_toFinset.mp hx))
  have := Finset.card_le_card hsub
  rw [hcard, Finset.card_range] at this
  exact this

theorem matchLoop_isSome :
    ∀ (fuel : Nat) (buys sells : List Order) (cb cs : List Nat) (acc : List MatchRecord),
      cb.Nodup → cs.Nodup → (∀ x ∈ cb, x < buys.length) → (∀ x ∈ cs, x < sells.length) →
      buys.length + sells.length + 1 ≤ fuel + cb.length + cs.length →
      ∃ out, matchLoop fuel buys sells cb cs acc = some out
  | 0, buys, sells, cb, cs, acc, hnb, hns, hbb, hbs, hfuel => by
    have h1 : cb.length ≤ buys.length := nodup_bounded_length hnb hbb
    have h2 : cs.length ≤ sells.length := nodup_bounded_length hns hbs
    omega
  | fuel + 1, buys, sells, cb, cs, acc, hnb, hns, hbb, hbs, hfuel => by
    rcases hfb : find_best_order buys cb cmpGT with _ | bi
    · exact ⟨_, matchLoop_eq_stopB fuel buys sells cb cs acc hfb⟩
    · rcases hfs : find_best_order sells cs cmpLT with _ | si
      · exact ⟨_, matchLoop_eq_stopS fuel buys sells cb cs acc bi hfb hfs⟩
      · by_cases hle : (sells.getD si default).price ≤ (buys.getD bi default).price
        · obtain ⟨hblt, hbnc, _⟩ := find_best_order_spec cmpGT cmpGT_trans cmpGT_total
            buys cb bi hfb
          obtain ⟨hslt, hsnc, _⟩ := find_best_order_spec cmpLT cmpLT_trans cmpLT_total
            sells cs si hfs
          have hgrow : (buys.getD bi default).qty -
                min (buys.getD bi default).qty (sells.getD si default).qty = 0 ∨
              (sells.getD si default).qty -
                min (buys.getD bi default).qty (sells.getD si default).qty = 0 := by
            rcases le_total (buys.getD bi default).qty (sells.getD si default).qty with hq | hq
            · exact Or.inl (by rw [min_eq_left hq]; omega)
            · exact Or.inr (by rw [min_eq_right hq]; omega)
          obtain ⟨out, hout⟩ := matchLoop_isSome fuel
            (buys.set bi { (buys.getD bi default) with qty := (buys.getD bi default).qty - min (buys.getD bi default).qty (sells.getD si default).qty })
            (sells.set si { (sells.getD si default) with qty := (sells.getD si default).qty - min (buys.getD bi default).qty (sells.getD si default).qty })
            (if (buys.getD bi default).qty - min (buys.getD bi default).qty (sells.getD si default).qty = 0 then cb ++ [bi] else cb)
            (if (sells.getD si default).qty - min (buys.getD bi default).qty (sells.getD si default).qty = 0 then cs ++ [si] else cs)
            (acc ++ [⟨(buys.getD bi default).id, (sells.getD si default).id, (buys.getD bi default).ticker, min (buys.getD bi default).qty (sells.getD si default).qty, (sells.getD si default).price⟩])
            (by split
                · exact (List.nodup_append.mpr ⟨hnb, List.nodup_singleton bi,
                    by simpa [List.disjoint_singleton] using hbnc⟩)
                · exact hnb)
            (by split
                · exact (List.nodup_append.mpr ⟨hns, List.nodup_singleton si,
                    by simpa [List.disjoint_singleton] using hsnc⟩)
                · exact hns)
            (by intro x hx
                rw [List.length_set]
                split at hx
                · rcases List.mem_append.mp hx with hx | hx
                  · exact hbb x hx
                  · simpa [List.mem_singleton.mp hx] using hblt
                · exact hbb x hx)
            (by intro x hx
                rw [List.length_set]
                split at hx
                · rcases List.mem_append.mp hx with hx | hx
                  · exact hbs x hx
                  · simpa [List.mem_singleton.mp hx] using hslt
                · exact hbs x hx)
            (by rw [List.length_set, List.length_set]
                have hb1 : (cb ++ [bi]).length = cb.length + 1 := by simp
                have hs1 : (cs ++ [si]).length = cs.length + 1 := by simp
                rcases hgrow with hg | hg
                · rw [if_pos hg]
                  split <;> omega
                · rw [if_pos hg]
                  split <;> omega)
          exact ⟨out, by
            rw [matchLoop_eq_step fuel buys sells cb cs acc bi si _ _ _ hfb hfs rfl rfl rfl hle]
            exact hout⟩
        · exact ⟨_, matchLoop_eq_nocross fuel buys sells cb cs acc bi si hfb hfs (not_le.mp hle)⟩

/-! ## Compaction lemmas -/

theorem stripCompleted_mem :
    ∀ (l : List Order) (c : List Nat) (i : Nat) (x : Order),
      x ∈ stripCompleted l c i ↔
        ∃ j, ∃ hj : j < l.length, (i + j) ∉ c ∧ l.get ⟨j, hj⟩ = x
  | [], c, i, x => by
    simp [stripCompleted]
  | o :: rest, c, i, x => by
    rw [stripCompleted]
    by_cases hmem : i ∈ c
    · rw [if_pos hmem, stripCompleted_mem rest c (i + 1) x]
      constructor
      · rintro ⟨j, hj, hnc, hget⟩
        exact ⟨j + 1, Nat.succ_lt_succ hj,
          by rw [show i + (j + 1) = i + 1 + j by omega]; exact hnc, hget⟩
      · rintro ⟨j, hj, hnc, hget⟩
        match j, hj, hnc, hget with
        | 0, hj, hnc, hget => exact absurd hmem (by simpa using hnc)
        | j + 1, hj, hnc, hget =>
          exact ⟨j, Nat.lt_of_succ_lt_succ hj,
            by rw [show i + 1 + j = i + (j + 1) by omega]; exact hnc, hget⟩
    · rw [if_neg hmem]
      simp only [List.mem_cons, stripCompleted_mem rest c (i + 1) x]
      constructor
      · rintro (hx | ⟨j, hj, hnc, hget⟩)
        · exact ⟨0, Nat.succ_pos _, by simpa using hmem, hx.symm⟩
        · exact ⟨j + 1, Nat.succ_lt_succ hj,
            by rw [show i + (j + 1) = i + 1 + j by omega]; exact hnc, hget⟩
      · rintro ⟨j, hj, hnc, hget⟩
        match j, hj, hnc, hget with
        | 0, hj, hnc, hget => exact Or.inl hget.symm
        | j + 1, hj, hnc, hget =>
          exact Or.inr ⟨j, Nat.lt_of_succ_lt_succ hj,
            by rw [show i + 1 + j = i + (j + 1) by omega]; exact hnc, hget⟩

theorem stripCompleted_eq_nil :
    ∀ (l : List Order) (c : List Nat) (i : Nat),
      (∀ j, j < l.length → (i + j) ∈ c) → stripCompleted l c i = []
  | [], _, _, _ => rfl
  | o :: rest, c, i, h => by
    rw [stripCompleted, if_pos (by simpa using h 0 (Nat.succ_pos _))]
    exact stripCompleted_eq_nil rest c (i + 1) (fun j hj => by
      rw [show i + 1 + j = i + (j + 1) by omega]
      exact h (j + 1) (Nat.succ_lt_succ hj))

/-! ## Termination of a matching pass -/

theorem matchTicker_isSome (buys sells : List Order) :
    ∃ r, matchTicker buys sells = some r := by
  unfold matchTicker
  by_cases he : (buys.isEmpty || sells.isEmpty) = true
  · rw [if_pos he]
    exact ⟨_, rfl⟩
  · rw [if_neg he]
    obtain ⟨out, hout⟩ := matchLoop_isSome (buys.length + sells.length + 1) buys sells [] [] []
      List.nodup_nil List.nodup_nil (by simp) (by simp) (by simp)
    rw [hout]
    exact ⟨_, rfl⟩

theorem matchStep_isSome (book : OrderBook) (idx : Nat) :
    ∃ r, matchStep book idx = some r := by
  unfold matchStep
  rcases book.tickerSymbols.getD idx none with _ | t
  · exact ⟨_, rfl⟩
  · obtain ⟨r, hr⟩ := matchTicker_isSome (book.buyOrders.getD idx [])
      (book.sellOrders.getD idx [])
    rcases r with ⟨ms, b', s'⟩
    rw [hr]
    exact ⟨_, rfl⟩

theorem matchRange_isSome :
    ∀ (l : List Nat) (book : OrderBook), ∃ r, matchRange l book = some r
  | [], book => ⟨_, rfl⟩
  | i :: rest, book => by
    obtain ⟨⟨ms, book'⟩, hstep⟩ := matchStep_isSome book i
    obtain ⟨⟨ms', book''⟩, hrest⟩ := matchRange_isSome rest book'
    exact ⟨(ms ++ ms', book''), by simp only [matchRange, hstep, hrest]⟩

/-- C9: a matching pass always terminates and returns.  In the model the
Python `while` loop carries explicit fuel and `match_orders` returns
`none` only on fuel exhaustion; the fuel `buys.length + sells.length + 1`
provably always suffices (each productive iteration marks at least one
further order completed), so every `match_orders` call returns a result. -/
theorem C9_terminates (book : OrderBook) :
    ∃ r, match_orders book = some r :=
  matchRange_isSome (List.range book.tickerCount) book

/-- C6: if the selected best buy prices strictly below the selected best
sell, the symbol's crossing loop stops immediately: no match record is
emitted and both resting collections are returned untouched. -/
theorem C6_no_cross (buys sells : List Order) (bi si : Nat)
    (hb : find_best_order buys [] cmpGT = some bi)
    (hs : find_best_order sells [] cmpLT = some si)
    (hlt : (buys.getD bi default).price < (sells.getD si default).price) :
    matchTicker buys sells = some ([], buys, sells) := by
  obtain ⟨hblt, _, _⟩ := find_best_order_spec cmpGT cmpGT_trans cmpGT_total buys [] bi hb
  obtain ⟨hslt, _, _⟩ := find_best_order_spec cmpLT cmpLT_trans cmpLT_total sells [] si hs
  have hbne : buys ≠ [] := List.ne_nil_of_length_pos (Nat.lt_of_le_of_lt (Nat.zero_le bi) hblt)
  have hsne : sells ≠ [] := List.ne_nil_of_length_pos (Nat.lt_of_le_of_lt (Nat.zero_le si) hslt)
  have hem : (buys.isEmpty || sells.isEmpty) = false := by
    simp [List.isEmpty_iff]
    exact ⟨hbne, hsne⟩
  unfold matchTicker
  rw [if_neg (by simp [hem])]
  rw [matchLoop_eq_nocross (buys.length + sells.length) buys sells [] [] [] bi si hb hs hlt]
  rfl

theorem C6_witness :
    matchTicker [{ side := BUY, ticker := "A", qty := 5, price := 9, id := 1, seq := 1 }]
        [{ side := SELL, ticker := "A", qty := 5, price := 10, id := 2, seq := 2 }] =
      some ([], [{ side := BUY, ticker := "A", qty := 5, price := 9, id := 1, seq := 1 }],
        [{ side := SELL, ticker := "A", qty := 5, price := 10, id := 2, seq := 2 }]) :=
  C6_no_cross [{ side := BUY, ticker := "A", qty := 5, price := 9, id := 1, seq := 1 }]
    [{ side := SELL, ticker := "A", qty := 5, price := 10, id := 2, seq := 2 }] 0 0
    rfl rfl (by decide)

theorem compaction_mem (l : List Order) (c : List Nat) (x : Order)
    (hx : x ∈ (if c.isEmpty then l else stripCompleted l c 0)) :
    ∃ j, ∃ hj : j < l.length, j ∉ c ∧ l.get ⟨j, hj⟩ = x := by
  split at hx
  · obtain ⟨⟨j, hj⟩, hget⟩ := List.mem_iff_get.mp hx
    refine ⟨j, hj, ?_, hget⟩
    have hc : c = [] := by simp_all [List.isEmpty_iff]
    simp [hc]
  · obtain ⟨j, hj, hnc, hget⟩ := (stripCompleted_mem l c 0 x).mp hx
    exact ⟨j, hj, by simpa using hnc, hget⟩

theorem compaction_mem_rev (l : List Order) (c : List Nat) (j : Nat) (hj : j < l.length)
    (hnc : j ∉ c) : l.get ⟨j, hj⟩ ∈ (if c.isEmpty then l else stripCompleted l c 0) := by
  split
  · exact List.get_mem l j hj
  · exact (stripCompleted_mem l c 0 _).mpr ⟨j, hj, by simpa using hnc, rfl⟩

theorem compaction_eq_nil (l : List Order) (c : List Nat)
    (hall : ∀ j, j < l.length → j ∈ c) :
    (if c.isEmpty then l else stripCompleted l c 0) = [] := by
  split
  · have hc : c = [] := by simp_all [List.isEmpty_iff]
    subst hc
    cases hl : l with
    | nil => rfl
    | cons y ys => exact absurd (hall 0 (by simp [hl])) (List.not_mem_nil 0)
  · exact stripCompleted_eq_nil l c 0 (fun j hj => by simpa using hall j hj)

theorem getD_get (l : List Order) (n : Nat) (h : n < l.length) :
    l.getD n default = l.get ⟨n, h⟩ := by
  rw [List.getD_eq_getElem?_getD, List.getElem?_eq_getElem h]
  rfl

theorem matchLoop_chain :
    ∀ (fuel : Nat) (buys sells : List Order) (cb cs : List Nat) (acc : List MatchRecord)
      (out : LoopOut), matchLoop fuel buys sells cb cs acc = some out →
      ∃ tail, out.recs = acc ++ tail ∧ SpecEventChain buys sells tail out.buys out.sells
  | 0, _, _, _, _, _, _, h => by exact absurd h (by simp [matchLoop])
  | fuel + 1, buys, sells, cb, cs, acc, out, h => by
    rcases matchLoop_inv fuel buys sells cb cs acc out h with
      ⟨hout, _⟩ | ⟨bi, si, hfb, hfs, hle, hrec⟩
    · rw [hout]
      exact ⟨[], by simp, SpecEventChain.nil buys sells⟩
    · obtain ⟨tail, htail, hchain⟩ := matchLoop_chain fuel _ _ _ _ _ out hrec
      obtain ⟨hblt, _, _⟩ := find_best_order_spec cmpGT cmpGT_trans cmpGT_total buys cb bi hfb
      obtain ⟨hslt, _, _⟩ := find_best_order_spec cmpLT cmpLT_trans cmpLT_total sells cs si hfs
      refine ⟨⟨(buys.getD bi default).id, (sells.getD si default).id,
        (buys.getD bi default).ticker,
        min (buys.getD bi default).qty (sells.getD si default).qty,
        (sells.getD si default).price⟩ :: tail, ?_, ?_⟩
      · rw [htail, List.append_assoc]
        rfl
      · refine SpecEventChain.step buys sells bi si hblt hslt _ tail out.buys out.sells
          ?_ ?_ ?_ ?_ ?_ ?_
        · show (buys.getD bi default).id = (buys.get ⟨bi, hblt⟩).id
          rw [getD_get buys bi hblt]
        · show (sells.getD si default).id = (sells.get ⟨si, hslt⟩).id
          rw [getD_get sells si hslt]
        · show (buys.getD bi default).ticker = (buys.get ⟨bi, hblt⟩).ticker
          rw [getD_get buys bi hblt]
        · show (sells.getD si default).price = (sells.get ⟨si, hslt⟩).price
          rw [getD_get sells si hslt]
        · show min (buys.getD bi default).qty (sells.getD si default).qty =
            min (buys.get ⟨bi, hblt⟩).qty (sells.get ⟨si, hslt⟩).qty
          rw [getD_get buys bi hblt, getD_get sells si hslt]
        · show SpecEventChain (buys.set bi { (buys.get ⟨bi, hblt⟩) with qty := (buys.get ⟨bi, hblt⟩).qty - min (buys.getD bi default).qty (sells.getD si default).qty }) (sells.set si { (sells.get ⟨si, hslt⟩) with qty := (sells.get ⟨si, hslt⟩).qty - min (buys.getD bi default).qty (sells.getD si default).qty }) tail out.buys out.sells
          rw [← getD_get buys bi hblt, ← getD_get sells si hslt]
          exact hchain

/-- C4: every match event of a symbol's crossing loop matches the buy and
sell orders named by the record's ids, records quantity
`min(remaining buy, remaining sell)` at the moment of the event, and
decrements both matched orders' remaining quantities by exactly that
amount: the emitted record list forms a `SpecEventChain` from the
pre-pass resting lists to end-state lists of which the pass's returned
resting collections are the retained orders. -/
theorem C4_match_quantity (buys sells : List Order) (ms : List MatchRecord)
    (b' s' : List Order) (h : matchTicker buys sells = some (ms, b', s')) :
    ∃ bmid smid, SpecEventChain buys sells ms bmid smid ∧
      (∀ o ∈ b', o ∈ bmid) ∧ (∀ o ∈ s', o ∈ smid) := by
  unfold matchTicker at h
  by_cases he : (buys.isEmpty || sells.isEmpty) = true
  · rw [if_pos he] at h
    injection h with h
    simp only [Prod.mk.injEq] at h
    refine ⟨buys, sells, h.1 ▸ SpecEventChain.nil buys sells, ?_, ?_⟩
    · rw [← h.2.1]
      exact fun o ho => ho
    · rw [← h.2.2]
      exact fun o ho => ho
  · rw [if_neg he] at h
    rcases hloop : matchLoop (buys.length + sells.length + 1) buys sells [] [] [] with _ | out
    · rw [hloop] at h
      exact absurd h (by simp)
    · rw [hloop] at h
      obtain ⟨tail, htail, hchain⟩ := matchLoop_chain _ _ _ _ _ _ out hloop
      injection h with h
      simp only [Prod.mk.injEq] at h
      have hms : ms = tail := by
        rw [← h.1, htail]
        simp
      refine ⟨out.buys, out.sells, hms ▸ hchain, ?_, ?_⟩
      · intro o ho
        rw [← h.2.1] at ho
        obtain ⟨j, hj, _, hget⟩ := compaction_mem out.buys out.cb o ho
        exact hget ▸ List.get_mem out.buys j hj
      · intro o ho
        rw [← h.2.2] at ho
        obtain ⟨j, hj, _, hget⟩ := compaction_mem out.sells out.cs o ho
        exact hget ▸ List.get_mem out.sells j hj

theorem C4_witness :
    ∃ bmid smid, SpecEventChain
      [{ side := BUY, ticker := "A", qty := 10, price := 10, id := 1, seq := 1 }]
      [{ side := SELL, ticker := "A", qty := 4, price := 9, id := 2, seq := 2 }]
      [{ buyId := 1, sellId := 2, ticker := "A", qty := 4, price := 9 }] bmid smid ∧
      (∀ o ∈ [({ side := BUY, ticker := "A", qty := 6, price := 10, id := 1, seq := 1 } :
        Order)], o ∈ bmid) ∧
      (∀ o ∈ ([] : List Order), o ∈ smid) :=
  C4_match_quantity
    [{ side := BUY, ticker := "A", qty := 10, price := 10, id := 1, seq := 1 }]
    [{ side := SELL, ticker := "A", qty := 4, price := 9, id := 2, seq := 2 }]
    [{ buyId := 1, sellId := 2, ticker := "A", qty := 4, price := 9 }]
    [{ side := BUY, ticker := "A", qty := 6, price := 10, id := 1, seq := 1 }] [] rfl

/-! ## List and book frame helpers -/

theorem matchTicker_nil_left (sells : List Order) :
    matchTicker [] sells = some ([], [], sells) := rfl

theorem matchTicker_nil_right (buys : List Order) :
    matchTicker buys [] = some ([], buys, []) := by
  cases buys with
  | nil => rfl
  | cons b bs =>
    unfold matchTicker
    rw [if_pos (by simp)]

theorem matchStep_inv (book : OrderBook) (i : Nat) (ms : List MatchRecord)
    (book' : OrderBook) (h : matchStep book i = some (ms, book')) :
    (book.tickerSymbols.getD i none = none ∧ ms = [] ∧ book' = book) ∨
    (∃ t b' s', book.tickerSymbols.getD i none = some t ∧
      matchTicker (book.buyOrders.getD i []) (book.sellOrders.getD i []) = some (ms, b', s') ∧
      book' = { book with buyOrders := book.buyOrders.set i b', sellOrders := book.sellOrders.set i s' }) := by
  unfold matchStep at h
  rcases hsym : book.tickerSymbols.getD i none with _ | t
  · rw [hsym] at h
    injection h with h
    simp only [Prod.mk.injEq] at h
    exact Or.inl ⟨rfl, h.1.symm, h.2.symm⟩
  · rw [hsym] at h
    rcases hmt : matchTicker (book.buyOrders.getD i []) (book.sellOrders.getD i []) with
      _ | ⟨ms1, b', s'⟩
    · rw [hmt] at h
      exact absurd h (by simp)
    · rw [hmt] at h
      injection h with h
      simp only [Prod.mk.injEq] at h
      exact Or.inr ⟨t, b', s', rfl, by rw [h.1], h.2.symm⟩

theorem matchStep_slots (book : OrderBook) (i : Nat) (ms : List MatchRecord)
    (book' : OrderBook) (h : matchStep book i = some (ms, book')) :
    book'.tickerSymbols = book.tickerSymbols ∧
    book'.tickerCount = book.tickerCount ∧
    book'.nextOrderId = book.nextOrderId ∧
    (∀ j, j ≠ i → book'.buyOrders.getD j [] = book.buyOrders.getD j [] ∧
      book'.sellOrders.getD j [] = book.sellOrders.getD j []) ∧
    ((book.tickerSymbols.getD i none = none ∧
        book'.buyOrders.getD i [] = book.buyOrders.getD i [] ∧
        book'.sellOrders.getD i [] = book.sellOrders.getD i []) ∨
      ∃ msi, matchTicker (book.buyOrders.getD i []) (book.sellOrders.getD i []) =
        some (msi, book'.buyOrders.getD i [], book'.sellOrders.getD i [])) := by
  rcases matchStep_inv book i ms book' h with ⟨hsym, hms, hbook⟩ | ⟨t, b', s', hsym, hmt, hbook⟩
  · subst hbook
    exact ⟨rfl, rfl, rfl, fun j _ => ⟨rfl, rfl⟩, Or.inl ⟨hsym, rfl, rfl⟩⟩
  · subst hbook
    refine ⟨rfl, rfl, rfl, ?_, ?_⟩
    · intro j hj
      exact ⟨getD_set_ne _ _ _ _ _ hj, getD_set_ne _ _ _ _ _ hj⟩
    · refine Or.inr ⟨ms, ?_⟩
      have hbuy : (book.buyOrders.set i b').getD i [] = b' ∨
          ((book.buyOrders.set i b').getD i [] = book.buyOrders.getD i [] ∧
            book.buyOrders.getD i [] = []) := by
        by_cases hi : i < book.buyOrders.length
        · exact Or.inl (getD_set_lt _ _ _ _ hi)
        · have hoob := Nat.le_of_not_lt hi
          rw [List.set_eq_of_length_le hoob]
          exact Or.inr ⟨rfl, getD_oob _ _ _ hoob⟩
      have hsell : (book.sellOrders.set i s').getD i [] = s' ∨
          ((book.sellOrders.set i s').getD i [] = book.sellOrders.getD i [] ∧
            book.sellOrders.getD i [] = []) := by
        by_cases hi : i < book.sellOrders.length
        · exact Or.inl (getD_set_lt _ _ _ _ hi)
        · have hoob := Nat.le_of_not_lt hi
          rw [List.set_eq_of_length_le hoob]
          exact Or.inr ⟨rfl, getD_oob _ _ _ hoob⟩
      rcases hbuy with hbuy | ⟨hbuy, hbnil⟩
      · rcases hsell with hsell | ⟨hsell, hsnil⟩
        · rw [hbuy, hsell]
          exact hmt
        · rw [hbuy, hsell, hsnil]
          rw [hsnil] at hmt
          rw [matchTicker_nil_right] at hmt
          injection hmt with hmt
          simp only [Prod.mk.injEq] at hmt
          rw [← hmt.1, ← hmt.2.1]
          exact matchTicker_nil_right _
      · rcases hsell with hsell | ⟨hsell, hsnil⟩
        · rw [hbuy, hsell, hbnil]
          rw [hbnil] at hmt
          rw [matchTicker_nil_left] at hmt
          injection hmt with hmt
          simp only [Prod.mk.injEq] at hmt
          rw [← hmt.1, ← hmt.2.2]
          exact matchTicker_nil_left _
        · rw [hbuy, hsell, hbnil, hsnil]
          rw [hbnil, hsnil] at hmt
          rw [matchTicker_nil_left] at hmt
          injection hmt with hmt
          simp only [Prod.mk.injEq] at hmt
          rw [← hmt.1]
          exact matchTicker_nil_left _

theorem matchRange_inv (l : List Nat) (i : Nat) (book : OrderBook) (ms : List MatchRecord)
    (book' : OrderBook) (h : matchRange (i :: l) book = some (ms, book')) :
    ∃ ms1 book1 ms2, matchStep book i = some (ms1, book1) ∧
      matchRange l book1 = some (ms2, book') ∧ ms = ms1 ++ ms2 := by
  unfold matchRange at h
  rcases hstep : matchStep book i with _ | ⟨ms1, book1⟩
  · rw [hstep] at h
    exact absurd h (by simp)
  · rw [hstep] at h
    replace h : (match matchRange l book1 with
        | none => none
        | some (ms2, book2) => some (ms1 ++ ms2, book2)) = some (ms, book') := h
    rcases hrest : matchRange l book1 with _ | ⟨ms2, book2⟩
    · rw [hrest] at h
      exact absurd h (by simp)
    · rw [hrest] at h
      injection h with h
      simp only [Prod.mk.injEq] at h
      exact ⟨ms1, book1, ms2, rfl, by rw [← h.2]; exact hrest, h.1.symm⟩

theorem matchRange_slots :
    ∀ (l : List Nat) (book : OrderBook) (ms : List MatchRecord) (book' : OrderBook),
      l.Nodup → matchRange l book = some (ms, book') →
      book'.tickerSymbols = book.tickerSymbols ∧
      book'.tickerCount = book.tickerCount ∧
      book'.nextOrderId = book.nextOrderId ∧
      (∀ j, j ∉ l → book'.buyOrders.getD j [] = book.buyOrders.getD j [] ∧
        book'.sellOrders.getD j [] = book.sellOrders.getD j []) ∧
      (∀ j, j ∈ l →
        (book.tickerSymbols.getD j none = none ∧
          book'.buyOrders.getD j [] = book.buyOrders.getD j [] ∧
          book'.sellOrders.getD j [] = book.sellOrders.getD j []) ∨
        ∃ msj, matchTicker (book.buyOrders.getD j []) (book.sellOrders.getD j []) =
          some (msj, book'.buyOrders.getD j [], book'.sellOrders.getD j []))
  | [], book, ms, book', _, h => by
    unfold matchRange at h
    injection h with h
    simp only [Prod.mk.injEq] at h
    rw [← h.2]
    exact ⟨rfl, rfl, rfl, fun j _ => ⟨rfl, rfl⟩, fun j hj => absurd hj (List.not_mem_nil j)⟩
  | i :: rest, book, ms, book', hnd, h => by
    obtain ⟨ms1, book1, ms2, hstep, hrest, hms⟩ := matchRange_inv rest i book ms book' h
    have hnd' := List.nodup_cons.mp hnd
    obtain ⟨hsym1, hcnt1, hnid1, hframe1, hslot1⟩ := matchStep_slots book i ms1 book1 hstep
    obtain ⟨hsym2, hcnt2, hnid2, hframe2, hslot2⟩ :=
      matchRange_slots rest book1 ms2 book' hnd'.2 hrest
    refine ⟨hsym2.trans hsym1, hcnt2.trans hcnt1, hnid2.trans hnid1, ?_, ?_⟩
    · intro j hj
      have hji : j ≠ i := fun he => hj (he ▸ List.mem_cons_self i rest)
      have hjr : j ∉ rest := fun hr => hj (List.mem_cons_of_mem i hr)
      exact ⟨(hframe2 j hjr).1.trans (hframe1 j hji).1,
        (hframe2 j hjr).2.trans (hframe1 j hji).2⟩
    · intro j hj
      rcases List.mem_cons.mp hj with hji | hjr
      · subst hji
        have hjr : j ∉ rest := hnd'.1
        have hb2 : book'.buyOrders.getD j [] = book1.buyOrders.getD j [] := (hframe2 j hjr).1
        have hs2 : book'.sellOrders.getD j [] = book1.sellOrders.getD j [] := (hframe2 j hjr).2
        rcases hslot1 with ⟨hn, hbu, hsu⟩ | ⟨msj, hmt⟩
        · exact Or.inl ⟨hn, hb2.trans hbu, hs2.trans hsu⟩
        · exact Or.inr ⟨msj, by rw [hb2, hs2]; exact hmt⟩
      · have hji : j ≠ i := fun he => hnd'.1 (he ▸ hjr)
        have hbu : book1.buyOrders.getD j [] = book.buyOrders.getD j [] := (hframe1 j hji).1
        have hsu : book1.sellOrders.getD j [] = book.sellOrders.getD j [] := (hframe1 j hji).2
        have hsy : book1.tickerSymbols.getD j none = book.tickerSymbols.getD j none := by
          rw [hsym1]
        rcases hslot2 j hjr with ⟨hn, hbu2, hsu2⟩ | ⟨msj, hmt⟩
        · exact Or.inl ⟨hsy ▸ hn, hbu2.trans hbu, hsu2.trans hsu⟩
        · exact Or.inr ⟨msj, by rw [← hbu, ← hsu]; exact hmt⟩

theorem matchRange_records :
    ∀ (l : List Nat) (book : OrderBook) (ms : List MatchRecord) (book' : OrderBook),
      l.Nodup → matchRange l book = some (ms, book') →
      ∀ r ∈ ms, ∃ i, i ∈ l ∧ ∃ msi b' s',
        matchTicker (book.buyOrders.getD i []) (book.sellOrders.getD i []) =
          some (msi, b', s') ∧ r ∈ msi
  | [], book, ms, book', _, h => by
    unfold matchRange at h
    injection h with h
    simp only [Prod.mk.injEq] at h
    rw [← h.1]
    exact fun r hr => absurd hr (List.not_mem_nil r)
  | i :: rest, book, ms, book', hnd, h => by
    obtain ⟨ms1, book1, ms2, hstep, hrest, hms⟩ := matchRange_inv rest i book ms book' h
    have hnd' := List.nodup_cons.mp hnd
    obtain ⟨hsym1, hcnt1, hnid1, hframe1, hslot1⟩ := matchStep_slots book i ms1 book1 hstep
    intro r hr
    rw [hms] at hr
    rcases List.mem_append.mp hr with hr1 | hr2
    · rcases matchStep_inv book i ms1 book1 hstep with ⟨_, hms1, _⟩ | ⟨t, b', s', _, hmt, _⟩
      · rw [hms1] at hr1
        exact absurd hr1 (List.not_mem_nil r)
      · exact ⟨i, List.mem_cons_self i rest, ms1, b', s', hmt, hr1⟩
    · obtain ⟨j, hjl, msj, b', s', hmt, hrm⟩ :=
        matchRange_records rest book1 ms2 book' hnd'.2 hrest r hr2
      have hji : j ≠ i := fun he => hnd'.1 (he ▸ hjl)
      refine ⟨j, List.mem_cons_of_mem i hjl, msj, b', s', ?_, hrm⟩
      rw [(hframe1 j hji).1, (hframe1 j hji).2] at hmt
      exact hmt

theorem get_set_self (l : List Order) (i : Nat) (x : Order)
    (h : i < (l.set i x).length) : (l.set i x).get ⟨i, h⟩ = x := by
  rw [List.get_eq_getElem, List.getElem_set_self]

theorem get_set_other (l : List Order) (i j : Nat) (x : Order) (hij : i ≠ j)
    (h : j < (l.set i x).length) :
    (l.set i x).get ⟨j, h⟩ = l.get ⟨j, by simpa using h⟩ := by
  rw [List.get_eq_getElem, List.get_eq_getElem, List.getElem_set_ne hij]

theorem matchLoop_records :
    ∀ (fuel : Nat) (buys sells : List Order) (cb cs : List Nat) (acc : List MatchRecord)
      (out : LoopOut), matchLoop fuel buys sells cb cs acc = some out →
      ∀ r ∈ out.recs, r ∈ acc ∨
        ∃ j, ∃ hj : j < sells.length, (sells.get ⟨j, hj⟩).id = r.sellId ∧
          r.price = (sells.get ⟨j, hj⟩).price
  | 0, _, _, _, _, _, _, h => by exact absurd h (by simp [matchLoop])
  | fuel + 1, buys, sells, cb, cs, acc, out, h => by
    rcases matchLoop_inv fuel buys sells cb cs acc out h with
      ⟨hout, _⟩ | ⟨bi, si, hfb, hfs, hle, hrec⟩
    · rw [hout]
      exact fun r hr => Or.inl hr
    · obtain ⟨hslt, _, _⟩ := find_best_order_spec cmpLT cmpLT_trans cmpLT_total sells cs si hfs
      intro r hr
      rcases matchLoop_records fuel _ _ _ _ _ out hrec r hr with hacc | ⟨j, hj, hid, hpr⟩
      · rcases List.mem_append.mp hacc with h1 | h1
        · exact Or.inl h1
        · rw [List.mem_singleton.mp h1]
          refine Or.inr ⟨si, hslt, ?_, ?_⟩
          · rw [← getD_get sells si hslt]
          · rw [← getD_get sells si hslt]
      · have hj' : j < sells.length := by simpa using hj
        by_cases hji : j = si
        · subst hji
          refine Or.inr ⟨j, hj', ?_, ?_⟩
          · have hid' : ((sells.set j { (sells.getD j default) with qty := (sells.getD j default).qty - min (buys.getD bi default).qty (sells.getD j default).qty }).get ⟨j, hj⟩).id = r.sellId := hid
            rw [get_set_self] at hid'
            have : (sells.getD j default).id = r.sellId := hid'
            rw [getD_get sells j hj'] at this
            exact this
          · have hpr' : r.price = ((sells.set j { (sells.getD j default) with qty := (sells.getD j default).qty - min (buys.getD bi default).qty (sells.getD j default).qty }).get ⟨j, hj⟩).price := hpr
            rw [get_set_self] at hpr'
            have : r.price = (sells.getD j default).price := hpr'
            rw [getD_get sells j hj'] at this
            exact this
        · refine Or.inr ⟨j, hj', ?_, ?_⟩
          · rw [← get_set_other sells si j { (sells.getD si default) with qty := (sells.getD si default).qty - min (buys.getD bi default).qty (sells.getD si default).qty } (fun he => hji he.symm) hj]
            exact hid
          · rw [← get_set_other sells si j { (sells.getD si default) with qty := (sells.getD si default).qty - min (buys.getD bi default).qty (sells.getD si default).qty } (fun he => hji he.symm) hj]
            exact hpr

theorem matchTicker_records (buys sells : List Order) (ms : List MatchRecord)
    (b' s' : List Order) (h : matchTicker buys sells = some (ms, b', s')) :
    ∀ r ∈ ms, ∃ s0, s0 ∈ sells ∧ s0.id = r.sellId ∧ r.price = s0.price := by
  unfold matchTicker at h
  by_cases he : (buys.isEmpty || sells.isEmpty) = true
  · rw [if_pos he] at h
    injection h with h
    simp only [Prod.mk.injEq] at h
    rw [← h.1]
    exact fun r hr => absurd hr (List.not_mem_nil r)
  · rw [if_neg he] at h
    rcases hloop : matchLoop (buys.length + sells.length + 1) buys sells [] [] [] with _ | out
    · rw [hloop] at h
      exact absurd h (by simp)
    · rw [hloop] at h
      injection h with h
      simp only [Prod.mk.injEq] at h
      intro r hr
      rw [← h.1] at hr
      rcases matchLoop_records _ _ _ _ _ _ out hloop r hr with hacc | ⟨j, hj, hid, hpr⟩
      · exact absurd hacc (List.not_mem_nil r)
      · exact ⟨sells.get ⟨j, hj⟩, List.get_mem sells j hj, hid, hpr⟩

/-- C3: the maker-price rule.  Every match record emitted by a matching
pass carries as execution price the limit price of the matched resting
sell order: for each record there is a sell order, resting in the
pre-pass book and carrying the record's sell order id, whose limit price
is the record's execution price — over all symbols and scenarios. -/
theorem C3_maker_price (book : OrderBook) (ms : List MatchRecord) (book' : OrderBook)
    (h : match_orders book = some (ms, book')) :
    ∀ r ∈ ms, ∃ i s0, s0 ∈ book.sellOrders.getD i [] ∧
      s0.id = r.sellId ∧ r.price = s0.price := by
  intro r hr
  obtain ⟨i, _, msi, b', s', hmt, hrm⟩ :=
    matchRange_records (List.range book.tickerCount) book ms book' (List.nodup_range _) h r hr
  obtain ⟨s0, hs0, hid, hpr⟩ := matchTicker_records _ _ _ _ _ hmt r hrm
  exact ⟨i, s0, hs0, hid, hpr⟩

theorem C3_witness :
    ∃ i s0,
      s0 ∈ ((add_order (add_order (create_order_book 2) 0 BUY "A" 10 10).2.1 1 SELL "A" 4
        9).2.1.sellOrders.getD i []) ∧
      s0.id = 2 ∧ (9 : Int) = s0.price :=
  C3_maker_price
    (add_order (add_order (create_order_book 2) 0 BUY "A" 10 10).2.1 1 SELL "A" 4 9).2.1
    [{ buyId := 1, sellId := 2, ticker := "A", qty := 4, price := 9 }]
    { tickerSymbols := [some "A", none],
      buyOrders := [[{ side := BUY, ticker := "A", qty := 6, price := 10, id := 1, seq := 1 }], []],
      sellOrders := [[], []], tickerCount := 1, nextOrderId := 3 }
    rfl { buyId := 1, sellId := 2, ticker := "A", qty := 4, price := 9 } (by simp)

/-! ## Positivity of resting quantities -/

theorem matchLoop_positive :
    ∀ (fuel : Nat) (buys sells : List Order) (cb cs : List Nat) (acc : List MatchRecord)
      (out : LoopOut), matchLoop fuel buys sells cb cs acc = some out →
      (∀ j (hj : j < buys.length), j ∉ cb → 0 < (buys.get ⟨j, hj⟩).qty) →
      (∀ j (hj : j < sells.length), j ∉ cs → 0 < (sells.get ⟨j, hj⟩).qty) →
      (∀ j (hj : j < out.buys.length), j ∉ out.cb → 0 < (out.buys.get ⟨j, hj⟩).qty) ∧
      (∀ j (hj : j < out.sells.length), j ∉ out.cs → 0 < (out.sells.get ⟨j, hj⟩).qty)
  | 0, _, _, _, _, _, _, h, _, _ => by exact absurd h (by simp [matchLoop])
  | fuel + 1, buys, sells, cb, cs, acc, out, h, hbp, hsp => by
    rcases matchLoop_inv fuel buys sells cb cs acc out h with
      ⟨hout, _⟩ | ⟨bi, si, hfb, hfs, hle, hrec⟩
    · rw [hout]
      exact ⟨hbp, hsp⟩
    · refine matchLoop_positive fuel _ _ _ _ _ out hrec ?_ ?_
      · intro j hj hnc
        have hj' : j < buys.length := by simpa using hj
        by_cases hji : j = bi
        · subst hji
          rw [get_set_self]
          show 0 < (buys.getD j default).qty -
            min (buys.getD j default).qty (sells.getD si default).qty
          have hne : ¬((buys.getD j default).qty -
              min (buys.getD j default).qty (sells.getD si default).qty = 0) := by
            intro h0
            rw [if_pos h0] at hnc
            exact hnc (List.mem_append.mpr (Or.inr (List.mem_singleton.mpr rfl)))
          have hmin : min (buys.getD j default).qty (sells.getD si default).qty ≤
            (buys.getD j default).qty := min_le_left _ _
          omega
        · rw [get_set_other buys bi j _ (fun he => hji he.symm) hj]
          refine hbp j hj' ?_
          intro hjc
          apply hnc
          split
          · exact List.mem_append.mpr (Or.inl hjc)
          · exact hjc
      · intro j hj hnc
        have hj' : j < sells.length := by simpa using hj
        by_cases hji : j = si
        · subst hji
          rw [get_set_self]
          show 0 < (sells.getD j default).qty -
            min (buys.getD bi default).qty (sells.getD j default).qty
          have hne : ¬((sells.getD j default).qty -
              min (buys.getD bi default).qty (sells.getD j default).qty = 0) := by
            intro h0
            rw [if_pos h0] at hnc
            exact hnc (List.mem_append.mpr (Or.inr (List.mem_singleton.mpr rfl)))
          have hmin : min (buys.getD bi default).qty (sells.getD j default).qty ≤
            (sells.getD j default).qty := min_le_right _ _
          omega
        · rw [get_set_other sells si j _ (fun he => hji he.symm) hj]
          refine hsp j hj' ?_
          intro hjc
          apply hnc
          split
          · exact List.mem_append.mpr (Or.inl hjc)
          · exact hjc

theorem matchTicker_positive (buys sells : List Order) (ms : List MatchRecord)
    (b' s' : List Order) (h : matchTicker buys sells = some (ms, b', s'))
    (hb : ∀ o ∈ buys, 0 < o.qty) (hs : ∀ o ∈ sells, 0 < o.qty) :
    (∀ o ∈ b', 0 < o.qty) ∧ (∀ o ∈ s', 0 < o.qty) := by
  unfold matchTicker at h
  by_cases he : (buys.isEmpty || sells.isEmpty) = true
  · rw [if_pos he] at h
    injection h with h
    simp only [Prod.mk.injEq] at h
    rw [← h.2.1, ← h.2.2]
    exact ⟨hb, hs⟩
  · rw [if_neg he] at h
    rcases hloop : matchLoop (buys.length + sells.length + 1) buys sells [] [] [] with _ | out
    · rw [hloop] at h
      exact absurd h (by simp)
    · rw [hloop] at h
      injection h with h
      simp only [Prod.mk.injEq] at h
      obtain ⟨hpb, hps⟩ := matchLoop_positive _ _ _ _ _ _ out hloop
        (fun j hj _ => hb _ (List.get_mem buys j hj))
        (fun j hj _ => hs _ (List.get_mem sells j hj))
      constructor
      · rw [← h.2.1]
        split
        · intro o ho
          obtain ⟨⟨j, hj⟩, hget⟩ := List.mem_iff_get.mp ho
          have hnc : j ∉ out.cb := by
            intro hc
            simp_all
          exact hget ▸ hpb j hj hnc
        · intro o ho
          obtain ⟨j, hj, hnc, hget⟩ := (stripCompleted_mem out.buys out.cb 0 o).mp ho
          exact hget ▸ hpb j hj (by simpa using hnc)
      · rw [← h.2.2]
        split
        · intro o ho
          obtain ⟨⟨j, hj⟩, hget⟩ := List.mem_iff_get.mp ho
          have hnc : j ∉ out.cs := by
            intro hc
            simp_all
          exact hget ▸ hps j hj hnc
        · intro o ho
          obtain ⟨j, hj, hnc, hget⟩ := (stripCompleted_mem out.sells out.cs 0 o).mp ho
          exact hget ▸ hps j hj (by simpa using hnc)

theorem add_order_positive (book : OrderBook) (seq ty : Nat) (t : String) (q p : Int)
    (hbp : BookPositive book) (hq : 0 < q) :
    BookPositive (add_order book seq ty t q p).2.1 := by
  have hpres := get_ticker_index_preserves { book with nextOrderId := book.nextOrderId + 1 } t
  simp only [add_order]
  rcases hgt : get_ticker_index { book with nextOrderId := book.nextOrderId + 1 } t with
    ⟨r, book2⟩
  rw [hgt] at hpres
  have hbp2 : BookPositive book2 := by
    intro i
    rw [show book2.buyOrders = book.buyOrders from hpres.1,
      show book2.sellOrders = book.sellOrders from hpres.2.1]
    exact hbp i
  cases r with
  | none => exact hbp2
  | some idx =>
    by_cases hty : ty = BUY <;> simp only [if_pos, if_neg, hty, if_true, if_false] <;> intro i
    · constructor
      · intro o ho
        by_cases hidx : i = idx
        · subst hidx
          by_cases hlen : i < book2.buyOrders.length
          · rw [getD_set_lt _ _ _ _ hlen] at ho
            rcases List.mem_append.mp ho with ho | ho
            · exact (hbp2 i).1 o ho
            · rw [List.mem_singleton.mp ho]
              exact hq
          · rw [List.set_eq_of_length_le (Nat.le_of_not_lt hlen)] at ho
            exact (hbp2 i).1 o ho
        · rw [getD_set_ne _ _ _ _ _ hidx] at ho
          exact (hbp2 i).1 o ho
      · exact (hbp2 i).2
    · constructor
      · exact (hbp2 i).1
      · intro o ho
        by_cases hidx : i = idx
        · subst hidx
          by_cases hlen : i < book2.sellOrders.length
          · rw [getD_set_lt _ _ _ _ hlen] at ho
            rcases List.mem_append.mp ho with ho | ho
            · exact (hbp2 i).2 o ho
            · rw [List.mem_singleton.mp ho]
              exact hq
          · rw [List.set_eq_of_length_le (Nat.le_of_not_lt hlen)] at ho
            exact (hbp2 i).2 o ho
        · rw [getD_set_ne _ _ _ _ _ hidx] at ho
          exact (hbp2 i).2 o ho

theorem getD_replicate_nil :
    ∀ (n i : Nat), (List.replicate n ([] : List Order)).getD i [] = []
  | 0, _ => rfl
  | n + 1, 0 => rfl
  | n + 1, i + 1 => getD_replicate_nil n i

theorem bookPositive_create (n : Nat) : BookPositive (create_order_book n) := by
  intro i
  constructor <;> intro o ho
  · rw [show (create_order_book n).buyOrders = List.replicate n [] from rfl,
      getD_replicate_nil n i] at ho
    exact absurd ho (List.not_mem_nil o)
  · rw [show (create_order_book n).sellOrders = List.replicate n [] from rfl,
      getD_replicate_nil n i] at ho
    exact absurd ho (List.not_mem_nil o)

/-- C8 counterexample: the positivity invariant is *not* preserved by
every submission: `add_order` does not validate quantity, so submitting
quantity `0` to a book satisfying the invariant leaves a resting order
with quantity `0` in the book. -/
theorem C8_counterexample :
    BookPositive (create_order_book 2) ∧
    ¬ BookPositive (add_order (create_order_book 2) 0 BUY "A" 0 10).2.1 := by
  refine ⟨bookPositive_create 2, fun h => ?_⟩
  have := (h 0).1 { side := BUY, ticker := "A", qty := 0, price := 10, id := 1, seq := 1 }
    (by decide)
  exact absurd this (by decide)

/-- C8 (amended): every resting order having strictly positive remaining
quantity is an invariant preserved by every matching pass and by every
submission *with positive quantity*; a fully filled order (quantity
reaching zero) is removed from its collection within the same pass.
Because `add_order` does not validate, a non-positive-quantity submission
violates the invariant (see the counterexample). -/
theorem C8_positivity :
    (∀ (book : OrderBook) (seq ty : Nat) (t : String) (q p : Int), BookPositive book →
      0 < q → BookPositive (add_order book seq ty t q p).2.1) ∧
    (∀ (book : OrderBook) (ms : List MatchRecord) (book' : OrderBook), BookPositive book →
      match_orders book = some (ms, book') → BookPositive book') := by
  constructor
  · intro book seq ty t q p hbp hq
    exact add_order_positive book seq ty t q p hbp hq
  · intro book ms book' hbp h
    obtain ⟨_, _, _, hframe, hslot⟩ :=
      matchRange_slots (List.range book.tickerCount) book ms book' (List.nodup_range _) h
    intro i
    by_cases hmem : i ∈ List.range book.tickerCount
    · rcases hslot i hmem with ⟨_, hbu, hsu⟩ | ⟨msi, hmt⟩
      · rw [hbu, hsu]
        exact hbp i
      · exact matchTicker_positive _ _ _ _ _ hmt (hbp i).1 (hbp i).2
    · rw [(hframe i hmem).1, (hframe i hmem).2]
      exact hbp i

theorem C8_witness :
    BookPositive (add_order (add_order (create_order_book 2) 0 BUY "A" 10 10).2.1 1 SELL "A" 4
      9).2.1 ∧
    BookPositive
      { tickerSymbols := [some "A", none],
        buyOrders := [[{ side := BUY, ticker := "A", qty := 6, price := 10, id := 1, seq := 1 }],
          []],
        sellOrders := [[], []], tickerCount := 1, nextOrderId := 3 } := by
  have h1 : BookPositive (add_order (create_order_book 2) 0 BUY "A" 10 10).2.1 :=
    C8_positivity.1 (create_order_book 2) 0 BUY "A" 10 10 (bookPositive_create 2) (by decide)
  have h2 : BookPositive (add_order (add_order (create_order_book 2) 0 BUY "A" 10
      10).2.1 1 SELL "A" 4 9).2.1 :=
    C8_positivity.1 (add_order (create_order_book 2) 0 BUY "A" 10 10).2.1 1 SELL "A" 4 9 h1
      (by decide)
  exact ⟨h2, C8_positivity.2
    (add_order (add_order (create_order_book 2) 0 BUY "A" 10 10).2.1 1 SELL "A" 4 9).2.1
    [{ buyId := 1, sellId := 2, ticker := "A", qty := 4, price := 9 }]
    { tickerSymbols := [some "A", none],
      buyOrders := [[{ side := BUY, ticker := "A", qty := 6, price := 10, id := 1, seq := 1 }],
        []],
      sellOrders := [[], []], tickerCount := 1, nextOrderId := 3 } h2 rfl⟩

/-! ## Idempotence of a matching pass -/

theorem matchTicker_of_empty (buys sells : List Order)
    (he : (buys.isEmpty || sells.isEmpty) = true) :
    matchTicker buys sells = some ([], buys, sells) := by
  unfold matchTicker
  rw [if_pos he]

theorem matchTicker_fixedpoint (buys sells : List Order) (ms : List MatchRecord)
    (b' s' : List Order) (h : matchTicker buys sells = some (ms, b', s')) :
    matchTicker b' s' = some ([], b', s') := by
  unfold matchTicker at h
  by_cases he : (buys.isEmpty || sells.isEmpty) = true
  · rw [if_pos he] at h
    injection h with h
    simp only [Prod.mk.injEq] at h
    rw [← h.2.1, ← h.2.2]
    exact matchTicker_of_empty buys sells he
  · rw [if_neg he] at h
    rcases hloop : matchLoop (buys.length + sells.length + 1) buys sells [] [] [] with _ | out
    · rw [hloop] at h
      exact absurd h (by simp)
    · rw [hloop] at h
      injection h with h
      simp only [Prod.mk.injEq] at h
      obtain ⟨hb', hs'⟩ := And.intro h.2.1 h.2.2
      rcases matchLoop_exit _ _ _ _ _ _ out hloop with hexb | hexs | ⟨bi, si, hfb, hfs, hlt⟩
      · have hall := find_best_order_none cmpGT out.buys out.cb hexb
        have : b' = [] := by
          rw [← hb']
          exact compaction_eq_nil out.buys out.cb hall
        rw [this]
        rw [this] at hb'
        exact matchTicker_nil_left s'
      · have hall := find_best_order_none cmpLT out.sells out.cs hexs
        have : s' = [] := by
          rw [← hs']
          exact compaction_eq_nil out.sells out.cs hall
        rw [this]
        exact matchTicker_nil_right b'
      · obtain ⟨hblt, hbnc, hbdom⟩ :=
          find_best_order_spec cmpGT cmpGT_trans cmpGT_total out.buys out.cb bi hfb
        obtain ⟨hslt, hsnc, hsdom⟩ :=
          find_best_order_spec cmpLT cmpLT_trans cmpLT_total out.sells out.cs si hfs
        have hbmem : out.buys.get ⟨bi, hblt⟩ ∈ b' := by
          rw [← hb']
          exact compaction_mem_rev out.buys out.cb bi hblt hbnc
        have hsmem : out.sells.get ⟨si, hslt⟩ ∈ s' := by
          rw [← hs']
          exact compaction_mem_rev out.sells out.cs si hslt hsnc
        have hbne : b' ≠ [] := fun hn => by rw [hn] at hbmem; exact List.not_mem_nil _ hbmem
        have hsne : s' ≠ [] := fun hn => by rw [hn] at hsmem; exact List.not_mem_nil _ hsmem
        have hblen : 0 < b'.length := List.length_pos.mpr hbne
        have hslen : 0 < s'.length := List.length_pos.mpr hsne
        obtain ⟨bj, hbj⟩ := find_best_order_isSome cmpGT b' [] 0 hblen (List.not_mem_nil 0)
        obtain ⟨sj, hsj⟩ := find_best_order_isSome cmpLT s' [] 0 hslen (List.not_mem_nil 0)
        obtain ⟨hbjlt, _, _⟩ :=
          find_best_order_spec cmpGT cmpGT_trans cmpGT_total b' [] bj hbj
        obtain ⟨hsjlt, _, _⟩ :=
          find_best_order_spec cmpLT cmpLT_trans cmpLT_total s' [] sj hsj
        have hble : (b'.get ⟨bj, hbjlt⟩).price ≤ (out.buys.get ⟨bi, hblt⟩).price := by
          obtain ⟨j, hj, hjnc, hget⟩ := compaction_mem out.buys out.cb (b'.get ⟨bj, hbjlt⟩)
            (by rw [hb']; exact List.get_mem b' bj hbjlt)
          rcases hbdom j hj hjnc with hd | hd
          · rw [← hget]
            exact le_of_lt (by simpa [cmpGT] using hd)
          · have hd1 : (out.buys.get ⟨bi, hblt⟩).price = (out.buys.get ⟨j, hj⟩).price := hd.1
            rw [← hget, ← hd1]
        have hsle : (out.sells.get ⟨si, hslt⟩).price ≤ (s'.get ⟨sj, hsjlt⟩).price := by
          obtain ⟨j, hj, hjnc, hget⟩ := compaction_mem out.sells out.cs (s'.get ⟨sj, hsjlt⟩)
            (by rw [hs']; exact List.get_mem s' sj hsjlt)
          rcases hsdom j hj hjnc with hd | hd
          · rw [← hget]
            exact le_of_lt (by simpa [cmpLT] using hd)
          · have hd1 : (out.sells.get ⟨si, hslt⟩).price = (out.sells.get ⟨j, hj⟩).price := hd.1
            rw [← hget, hd1]
        have hnc2 : (b'.getD bj default).price < (s'.getD sj default).price := by
          rw [getD_get b' bj hbjlt, getD_get s' sj hsjlt]
          have h1 : (out.buys.getD bi default).price < (out.sells.getD si default).price := hlt
          rw [getD_get out.buys bi hblt, getD_get out.sells si hslt] at h1
          omega
        unfold matchTicker
        rw [if_neg (by simp [List.isEmpty_iff]; exact ⟨hbne, hsne⟩)]
        rw [matchLoop_eq_nocross (b'.length + s'.length) b' s' [] [] [] bj sj hbj hsj hnc2]
        rfl

theorem matchRange_nil_of_fixed :
    ∀ (l : List Nat) (book : OrderBook),
      (∀ j ∈ l, book.tickerSymbols.getD j none = none ∨
        matchTicker (book.buyOrders.getD j []) (book.sellOrders.getD j []) =
          some ([], book.buyOrders.getD j [], book.sellOrders.getD j [])) →
      matchRange l book = some ([], book)
  | [], book, _ => rfl
  | i :: rest, book, hfix => by
    have hstep : matchStep book i = some ([], book) := by
      unfold matchStep
      rcases hsym : book.tickerSymbols.getD i none with _ | t
      · rfl
      · rcases hfix i (List.mem_cons_self i rest) with hn | hmt
        · rw [hsym] at hn
          exact absurd hn (by simp)
        · rw [hmt]
          show some (([] : List MatchRecord), { book with buyOrders := book.buyOrders.set i (book.buyOrders.getD i []), sellOrders := book.sellOrders.set i (book.sellOrders.getD i []) }) = some ([], book)
          rw [list_set_getD_self, list_set_getD_self]
    have hrest := matchRange_nil_of_fixed rest book
      (fun j hj => hfix j (List.mem_cons_of_mem i hj))
    simp only [matchRange, hstep, hrest, List.nil_append]

/-- C7: matching is idempotent on a quiescent book: if a pass transforms
the book into `book'`, an immediately following pass on `book'` (no
submissions in between) emits no match records and leaves `book'`
unchanged. -/
theorem C7_idempotent (book : OrderBook) (ms : List MatchRecord) (book' : OrderBook)
    (h : match_orders book = some (ms, book')) :
    match_orders book' = some ([], book') := by
  obtain ⟨hsym, hcnt, _, hframe, hslot⟩ :=
    matchRange_slots (List.range book.tickerCount) book ms book' (List.nodup_range _) h
  unfold match_orders
  rw [hcnt]
  apply matchRange_nil_of_fixed
  intro j hj
  rcases hslot j hj with ⟨hn, hbu, hsu⟩ | ⟨msj, hmt⟩
  · left
    rw [hsym]
    exact hn
  · right
    exact matchTicker_fixedpoint _ _ _ _ _ hmt

theorem C7_witness :
    match_orders
      { tickerSymbols := [some "A", none],
        buyOrders := [[{ side := BUY, ticker := "A", qty := 6, price := 10, id := 1, seq := 1 }],
          []],
        sellOrders := [[], []], tickerCount := 1, nextOrderId := 3 } =
      some ([],
        { tickerSymbols := [some "A", none],
          buyOrders := [[{ side := BUY, ticker := "A", qty := 6, price := 10, id := 1, seq := 1 }], []],
          sellOrders := [[], []], tickerCount := 1, nextOrderId := 3 }) :=
  C7_idempotent
    (add_order (add_order (create_order_book 2) 0 BUY "A" 10 10).2.1 1 SELL "A" 4 9).2.1
    [{ buyId := 1, sellId := 2, ticker := "A", qty := 4, price := 9 }]
    { tickerSymbols := [some "A", none],
      buyOrders := [[{ side := BUY, ticker := "A", qty := 6, price := 10, id := 1, seq := 1 }],
        []],
      sellOrders := [[], []], tickerCount := 1, nextOrderId := 3 } rfl
